import Mathlib

/-!
Verification development for the email-client compatibility transform engine
(`server/src/services/emailOptimizer.ts`, class `EmailOptimizer`).

The engine is a multi-pass rewriting pipeline over an in-memory DOM tree
produced by a lenient HTML parser.  We embed the document tree shallowly as a
nested inductive (`Node`), and translate each pipeline stage into a pure Lean
function over the tree plus the two diagnostic collections (issues and
optimization records).  JavaScript string operations (`split`, `trim`,
`includes`, the `font-family` regular-expression match/replace) are translated
character-for-character at the `List Char` level so that their exact semantics
(including the backtracking of `/font-family:\s*([^;]+)/`) are preserved.

The external HTML parser (`cheerio.load`) and serializer (`$.html()`) are not
part of the repository; per the specification (§4.1) parsing and serialization
round-trip structurally, so properties about "the serialized output" are
stated over the final tree, and a second pipeline run over `optimizedHtml` is
modelled as a run over the final tree of the first run.
-/

namespace EmailOpt

/-! ### JavaScript string primitives (character-level translations) -/

/-- JavaScript whitespace test used by `String.prototype.trim`. -/
def isJsSpace (c : Char) : Bool := c.isWhitespace

/-- `trim` on a character list: drop whitespace on both ends. -/
def trimL (l : List Char) : List Char :=
  ((l.dropWhile isJsSpace).reverse.dropWhile isJsSpace).reverse

/-- JavaScript `s.trim()`. -/
def jsTrim (s : String) : String := ⟨trimL s.data⟩

/-- Split a character list at every occurrence of the separator character,
exactly like JavaScript `s.split(sep)` for a one-character separator. -/
def splitOnCharL (c : Char) : List Char → List (List Char)
  | [] => [[]]
  | a :: rest =>
    if a = c then [] :: splitOnCharL c rest
    else
      match splitOnCharL c rest with
      | [] => [[a]]
      | h :: t => (a :: h) :: t

/-- JavaScript `s.split(c)` for a single-character separator. -/
def jsSplit (c : Char) (s : String) : List String :=
  (splitOnCharL c s.data).map (fun l => ⟨l⟩)

/-- Substring test on character lists. -/
def hasSubstrL (needle : List Char) : List Char → Bool
  | [] => needle.isEmpty
  | l@(_ :: rest) => needle.isPrefixOf l || hasSubstrL needle rest

/-- JavaScript `s.includes(sub)`. -/
def jsIncludes (s sub : String) : Bool := hasSubstrL sub.data s.data

/-- Join character lists with a separator, like `Array.prototype.join`. -/
def joinSepL (sep : List Char) : List (List Char) → List Char
  | [] => []
  | [x] => x
  | x :: xs => x ++ sep ++ joinSepL sep xs

/-- JavaScript `arr.join(sep)`. -/
def jsJoin (sep : String) (l : List String) : String :=
  ⟨joinSepL sep.data (l.map String.data)⟩

/-- Worker for `fieldsWS`. -/
def goFields (acc : List Char) : List Char → List (List Char)
  | [] => if acc.isEmpty then [] else [acc.reverse]
  | c :: rest =>
    if isJsSpace c then
      if acc.isEmpty then goFields [] rest else acc.reverse :: goFields [] rest
    else goFields (c :: acc) rest

/-- Split on whitespace runs dropping empty pieces (JavaScript `split(/\s+/)`
as used by cheerio `addClass` membership checking). -/
def fieldsWS (l : List Char) : List (List Char) := goFields [] l

/-! ### Data model: issues and the document tree -/

/-- `EmailCompatibilityIssue.type : 'warning' | 'error'`. -/
inductive IssueType where
  | warning
  | error
deriving Repr, DecidableEq

/-- `EmailCompatibilityIssue` from the source. -/
structure Issue where
  type : IssueType
  message : String
  element : Option String
  recommendation : String
deriving Repr, DecidableEq

/-- Attribute list of a DOM element.  Attribute names are unique (the parser
collapses duplicates) and stored lower-case, as cheerio presents them. -/
abbrev Attrs := List (String × String)

/-- A node of the document tree: element (lower-cased tag, attributes,
children), text, or comment. -/
inductive Node where
  | elem (tag : String) (attrs : Attrs) (children : List Node)
  | text (s : String)
  | comment (s : String)
deriving Repr

/-- `$el.attr(name)`: the value of an attribute, if present. -/
def getAttr (a : Attrs) (name : String) : Option String :=
  match a.find? (fun p => p.1 == name) with
  | some p => some p.2
  | none => none

/-- `$el.attr(name, v)`: overwrite an existing attribute in place or append a
new one. -/
def setAttr (name v : String) : Attrs → Attrs
  | [] => [(name, v)]
  | (k, w) :: rest => if k == name then (name, v) :: rest else (k, w) :: setAttr name v rest

/-- JavaScript truthiness test `!$el.attr(name)`: true when the attribute is
absent or has the empty value. -/
def attrFalsy (a : Attrs) (name : String) : Bool :=
  match getAttr a name with
  | none => true
  | some v => v == ""

/-- cheerio `addClass`: append a class unless an existing whitespace-separated
class token already equals it. -/
def addClass (cls : String) (a : Attrs) : Attrs :=
  match getAttr a "class" with
  | none => setAttr "class" cls a
  | some c =>
    if (fieldsWS c.data).contains cls.data then a
    else setAttr "class" (c ++ " " ++ cls) a

/-! ### Generic tree traversals (document order = pre-order) -/

mutual
/-- Number of elements in a node's tree satisfying a tag/attribute predicate. -/
def countElemsN (p : String → Attrs → Bool) : Node → Nat
  | .elem t a cs => (if p t a then 1 else 0) + countElemsL p cs
  | .text _ => 0
  | .comment _ => 0
/-- Number of elements in a forest satisfying a predicate (`$(sel).length`). -/
def countElemsL (p : String → Attrs → Bool) : List Node → Nat
  | [] => 0
  | n :: ns => countElemsN p n + countElemsL p ns
end

mutual
/-- Every element of a node's tree satisfies the predicate. -/
def allElemsN (p : String → Attrs → Bool) : Node → Bool
  | .elem t a cs => p t a && allElemsL p cs
  | .text _ => true
  | .comment _ => true
/-- Every element of a forest satisfies the predicate. -/
def allElemsL (p : String → Attrs → Bool) : List Node → Bool
  | [] => true
  | n :: ns => allElemsN p n && allElemsL p ns
end

mutual
/-- Rewrite the attributes of every element with a pure function
(`$(sel).each` loops that only mutate the visited element). -/
def mapElemsN (f : String → Attrs → Attrs) : Node → Node
  | .elem t a cs => .elem t (f t a) (mapElemsL f cs)
  | .text s => .text s
  | .comment s => .comment s
/-- `mapElemsN` over a forest. -/
def mapElemsL (f : String → Attrs → Attrs) : List Node → List Node
  | [] => []
  | n :: ns => mapElemsN f n :: mapElemsL f ns
end

mutual
/-- Pre-order attribute rewrite threading an accumulator (issue list); the
callback also sees the element's children, as `$table.find('table')` does. -/
def mapAccumNode {σ : Type} (f : String → Attrs → List Node → σ → Attrs × σ) :
    Node → σ → Node × σ
  | .elem t a cs, s =>
    match f t a cs s with
    | (a', s') =>
      match mapAccumList f cs s' with
      | (cs', s'') => (.elem t a' cs', s'')
  | .text str, s => (.text str, s)
  | .comment str, s => (.comment str, s)
/-- `mapAccumNode` over a forest. -/
def mapAccumList {σ : Type} (f : String → Attrs → List Node → σ → Attrs × σ) :
    List Node → σ → List Node × σ
  | [], s => ([], s)
  | n :: ns, s =>
    match mapAccumNode f n s with
    | (n', s') =>
      match mapAccumList f ns s' with
      | (ns', s'') => (n' :: ns', s'')
end

mutual
/-- `$(sel).remove()`: drop every element (with its subtree) matching the
predicate; `none` when the node itself is removed. -/
def removeAllN (p : String → Attrs → Bool) : Node → Option Node
  | .elem t a cs => if p t a then none else some (.elem t a (removeAllL p cs))
  | .text s => some (.text s)
  | .comment s => some (.comment s)
/-- `removeAllN` over a forest. -/
def removeAllL (p : String → Attrs → Bool) : List Node → List Node
  | [] => []
  | n :: ns =>
    match removeAllN p n with
    | none => removeAllL p ns
    | some n' => n' :: removeAllL p ns
end

mutual
/-- `$(tag).append(ws)`: append nodes at the end of the children of every
element with the given tag. -/
def appendToTagN (tag : String) (ws : List Node) : Node → Node
  | .elem t a cs =>
    let cs' := appendToTagL tag ws cs
    .elem t a (if t == tag then cs' ++ ws else cs')
  | .text s => .text s
  | .comment s => .comment s
/-- `appendToTagN` over a forest. -/
def appendToTagL (tag : String) (ws : List Node) : List Node → List Node
  | [] => []
  | n :: ns => appendToTagN tag ws n :: appendToTagL tag ws ns
end

mutual
/-- `$(tag).prepend(ws)`: insert nodes first among the children of every
element with the given tag. -/
def prependToTagN (tag : String) (ws : List Node) : Node → Node
  | .elem t a cs =>
    let cs' := prependToTagL tag ws cs
    .elem t a (if t == tag then ws ++ cs' else cs')
  | .text s => .text s
  | .comment s => .comment s
/-- `prependToTagN` over a forest. -/
def prependToTagL (tag : String) (ws : List Node) : List Node → List Node
  | [] => []
  | n :: ns => prependToTagN tag ws n :: prependToTagL tag ws ns
end

mutual
/-- No element satisfying `q` occurs strictly inside an element satisfying
`p`.  Encodes the parser invariant that e.g. `<style>`/`<script>` subtrees
hold only raw text. -/
def noneUnderN (p q : String → Attrs → Bool) : Node → Bool
  | .elem t a cs => if p t a then countElemsL q cs == 0 else noneUnderL p q cs
  | .text _ => true
  | .comment _ => true
/-- `noneUnderN` over a forest. -/
def noneUnderL (p q : String → Attrs → Bool) : List Node → Bool
  | [] => true
  | n :: ns => noneUnderN p q n && noneUnderL p q ns
end

mutual
/-- Joint induction on `Node`. -/
def Node.indN (P : Node → Prop) (Q : List Node → Prop)
    (he : ∀ t a cs, Q cs → P (.elem t a cs))
    (ht : ∀ s, P (.text s)) (hc : ∀ s, P (.comment s))
    (hn : Q []) (hcons : ∀ n ns, P n → Q ns → Q (n :: ns)) : ∀ n : Node, P n
  | .elem t a cs => he t a cs (Node.indL P Q he ht hc hn hcons cs)
  | .text s => ht s
  | .comment s => hc s

/-- Joint induction on forests. -/
def Node.indL (P : Node → Prop) (Q : List Node → Prop)
    (he : ∀ t a cs, Q cs → P (.elem t a cs))
    (ht : ∀ s, P (.text s)) (hc : ∀ s, P (.comment s))
    (hn : Q []) (hcons : ∀ n ns, P n → Q ns → Q (n :: ns)) : ∀ l : List Node, Q l
  | [] => hn
  | n :: ns => hcons n ns (Node.indN P Q he ht hc hn hcons n) (Node.indL P Q he ht hc hn hcons ns)
end

/-! ### The `EmailOptimizer` pipeline (translated stage by stage) -/

/-- Shared diagnostic collections threaded through the pipeline. -/
structure Ctx where
  issues : List Issue
  optimizations : List String
deriving Repr, DecidableEq

/-- `EMAIL_SAFE_PROPERTIES` (a 15-entry set; membership only). -/
def EMAIL_SAFE_PROPERTIES : List String :=
  ["background-color", "color", "font-family", "font-size", "font-weight",
   "text-align", "padding", "margin", "border", "width", "height",
   "line-height", "text-decoration", "vertical-align", "display"]

/-- `OUTLOOK_SAFE_FONTS` (13 entries). -/
def OUTLOOK_SAFE_FONTS : List String :=
  ["Arial", "Helvetica", "Times New Roman", "Courier New", "Verdana",
   "Georgia", "Palatino", "Garamond", "Bookman", "Comic Sans MS",
   "Trebuchet MS", "Arial Black", "Impact"]

/-- Build a warning issue. -/
def warnIssue (msg : String) (el : Option String) (advice : String) : Issue :=
  ⟨.warning, msg, el, advice⟩

/-- Build an error issue. -/
def errorIssue (msg : String) (advice : String) : Issue :=
  ⟨.error, msg, none, advice⟩

/-- Per-element body of the `$('*').each` loop in `inlineStyles`: add default
`border-collapse` / `padding` declarations to tables and cells whose style
string does not already contain those substrings. -/
def inlineStylesFix (t : String) (a : Attrs) : Attrs :=
  if ["table", "td", "tr", "div", "p", "span", "a", "img"].contains t then
    let currentStyle := (getAttr a "style").getD ""
    let a1 :=
      if t == "table" && !(jsIncludes currentStyle "border-collapse") then
        setAttr "style" (currentStyle ++ "; border-collapse: collapse;") a
      else a
    if t == "td" && !(jsIncludes currentStyle "padding") then
      setAttr "style" (currentStyle ++ "; padding: 0;") a1
    else a1
  else a

/-- Stage 1, `inlineStyles`: warn about and remove all `<style>` tags, then
run `inlineStylesFix` on every element. -/
def inlineStyles (doc : List Node) (ctx : Ctx) : List Node × Ctx :=
  let styleCount := countElemsL (fun t _ => t == "style") doc
  if styleCount > 0 then
    (mapElemsL inlineStylesFix (removeAllL (fun t _ => t == "style") doc),
     { ctx with
       issues := ctx.issues ++
         [warnIssue ("Found " ++ toString styleCount ++ " <style> tags. Email clients have limited CSS support.")
           none "Use inline styles instead of CSS blocks for better compatibility."],
       optimizations := ctx.optimizations ++ ["Removed embedded CSS styles"] })
  else (mapElemsL inlineStylesFix doc, ctx)

/-- Per-table body of the `$('table').each` loop of `optimizeTableStructure`. -/
def tableFix (t : String) (a : Attrs) (cs : List Node) (issues : List Issue) :
    Attrs × List Issue :=
  if t == "table" then
    let a1 := setAttr "cellpadding" "0" a
    let a2 := setAttr "cellspacing" "0" a1
    let a3 := setAttr "border" "0" a2
    let styleHasWidth :=
      match getAttr a3 "style" with
      | none => false
      | some s => jsIncludes s "width"
    let a4 := if attrFalsy a3 "width" && !styleHasWidth then setAttr "width" "100%" a3 else a3
    let nestedTables := countElemsL (fun tg _ => tg == "table") cs
    let issues1 :=
      if nestedTables > 3 then
        issues ++
          [warnIssue ("Table has " ++ toString nestedTables ++ " nested tables. This may cause layout issues in some email clients.")
            (some "table") "Consider simplifying the table structure to reduce nesting."]
      else issues
    (a4, issues1)
  else (a, issues)

/-- Per-cell body of the `$('td').each` loop of `optimizeTableStructure`. -/
def tdFix (t : String) (a : Attrs) : Attrs :=
  if t == "td" && attrFalsy a "valign" then setAttr "valign" "top" a else a

/-- Stage 2, `optimizeTableStructure`. -/
def optimizeTableStructure (doc : List Node) (ctx : Ctx) : List Node × Ctx :=
  match mapAccumList (fun t a cs issues => tableFix t a cs issues) doc ctx.issues with
  | (doc1, issues1) =>
    (mapElemsL tdFix doc1,
      { ctx with
        issues := issues1,
        optimizations := ctx.optimizations ++ ["Optimized table structure for email clients"] })

/-- The dark-mode CSS block appended to `<head>` (content is never inspected
by the pipeline; `\x7b`/`\x7d` denote literal braces). -/
def darkModeCSS : String :=
  "\n      @media (prefers-color-scheme: dark) \x7b\n        .dark-mode-text \x7b color: #ffffff !important; \x7d\n        .dark-mode-bg \x7b background-color: #1a1a1a !important; \x7d\n        .dark-mode-border \x7b border-color: #333333 !important; \x7d\n      \x7d\n    "

/-- `if ($('head').length === 0) $('html').prepend('<head></head>')`. -/
def ensureHead (doc : List Node) : List Node :=
  if countElemsL (fun t _ => t == "head") doc == 0 then
    prependToTagL "html" [Node.elem "head" [] []] doc
  else doc

/-- Per-element body of the text-element loop in `addDarkModeSupport`. -/
def darkClassFix (t : String) (a : Attrs) : Attrs :=
  if ["p", "div", "span", "td", "h1", "h2", "h3", "h4", "h5", "h6"].contains t then
    let style := (getAttr a "style").getD ""
    if jsIncludes style "background" &&
        (jsIncludes style "#000" || jsIncludes style "#111" || jsIncludes style "#222") then
      addClass "dark-mode-text" a
    else a
  else a

/-- Stage 3, `addDarkModeSupport`. -/
def addDarkModeSupport (doc : List Node) (ctx : Ctx) : List Node × Ctx :=
  let doc1 := ensureHead doc
  let doc2 := appendToTagL "head"
    [Node.elem "style" [("type", "text/css")] [Node.text darkModeCSS]] doc1
  let doc3 := mapElemsL darkClassFix doc2
  (doc3, { ctx with optimizations := ctx.optimizations ++ ["Added dark mode support"] })

/-- Per-image body of the `$('img').each` loop of `optimizeImages`. -/
def imgFix (t : String) (a : Attrs) (issues : List Issue) : Attrs × List Issue :=
  if t == "img" then
    let altMissing := attrFalsy a "alt"
    let a1 := if altMissing then setAttr "alt" "" a else a
    let issues1 :=
      if altMissing then
        issues ++
          [warnIssue "Image missing alt text" (some "img")
            "Add descriptive alt text for accessibility and when images are blocked."]
      else issues
    let style := (getAttr a1 "style").getD ""
    let a2 := if !(jsIncludes style "display") then setAttr "style" (style ++ "; display: block;") a1 else a1
    let issues2 :=
      if attrFalsy a2 "width" && !(jsIncludes style "width") then
        issues1 ++
          [warnIssue "Image missing width attribute" (some "img")
            "Add width attribute for consistent rendering across email clients."]
      else issues1
    (a2, issues2)
  else (a, issues)

/-- Stage 4, `optimizeImages`. -/
def optimizeImages (doc : List Node) (ctx : Ctx) : List Node × Ctx :=
  match mapAccumList (fun t a _ issues => imgFix t a issues) doc ctx.issues with
  | (doc1, issues1) =>
    (doc1,
      { ctx with
        issues := issues1,
        optimizations := ctx.optimizations ++ ["Optimized images for email clients"] })

/-- Text of the MSO conditional comment appended to `<head>`; the HTML string
appended in the source parses to text, comment, text (the `<style>` inside the
conditional comment is part of the comment's text, not an element). -/
def msoCommentText : String :=
  "[if mso]>\n      <style type=\"text/css\">\n        table \x7b border-collapse: collapse; border-spacing: 0; \x7d\n        td \x7b border-collapse: collapse; \x7d\n      </style>\n      <![endif]"

/-- Nodes produced by parsing the `outlookCSS` template string on append. -/
def outlookCondNodes : List Node :=
  [Node.text "\n      ", Node.comment msoCommentText, Node.text "\n    "]

/-- Result of the first match of `/font-family:\s*([^;]+)/`:
`s = pre ++ "font-family:" ++ ws ++ capture ++ post`. -/
structure FFMatch where
  pre : List Char
  ws : List Char
  capture : List Char
  post : List Char
deriving Repr, DecidableEq

/-- Split the run of non-`;` characters following `font-family:` into the
`\s*` part and the `([^;]+)` capture, with the regex backtracking: when the
run is all whitespace its last character is given to the capture. -/
def ffSplitBody (body : List Char) : List Char × List Char :=
  let w := body.takeWhile isJsSpace
  let cap := body.drop w.length
  if cap.isEmpty then (w.dropLast, w.drop (w.length - 1)) else (w, cap)

/-- The literal searched by the font regular expression. -/
def ffKey : List Char := "font-family:".data

/-- First match of `/font-family:\s*([^;]+)/` in a character list, scanning
left to right (a position where `font-family:` is followed by end-of-string
or `;` does not match, and scanning resumes at the next character). -/
def ffScan : List Char → Option FFMatch
  | [] => none
  | c :: rest =>
    if ffKey.isPrefixOf (c :: rest) then
      let after := (c :: rest).drop ffKey.length
      if after.isEmpty || after.headD ' ' == ';' then
        match ffScan rest with
        | none => none
        | some m => some { m with pre := c :: m.pre }
      else
        let body := after.takeWhile (fun ch => ch ≠ ';')
        let post := after.drop body.length
        let p := ffSplitBody body
        some { pre := [], ws := p.1, capture := p.2, post := post }
    else
      match ffScan rest with
      | none => none
      | some m => some { m with pre := c :: m.pre }

/-- `f.trim().replace(/['"]/g, '')` applied to one font-list entry. -/
def dequote (s : String) : String :=
  ⟨s.data.filter (fun c => !(c == '\'' || c == '"'))⟩

/-- `fontMatch[1].split(',').map(f => f.trim().replace(/['"]/g, ''))`. -/
def parseFonts (capture : String) : List String :=
  (jsSplit ',' capture).map (fun f => dequote (jsTrim f))

/-- ECMAScript `GetSubstitution` for a string replacement with one capture
group: `String.prototype.replace` expands `$`-sequences in the replacement
string — `$$` to `$`, `$&` to the matched text, `$` + backquote to the text
before the match, `$'` to the text after the match, `$1` (also written `$01`;
a further digit stays literal, as the two-digit index `10`–`19` exceeds the
group count and falls back to `$1`) to the capture; any other `$` is
literal. -/
def getSubstitution (matched pre post cap : List Char) : List Char → List Char
  | [] => []
  | ['$'] => ['$']
  | '$' :: '$' :: r => '$' :: getSubstitution matched pre post cap r
  | '$' :: '&' :: r => matched ++ getSubstitution matched pre post cap r
  | '$' :: '\x60' :: r => pre ++ getSubstitution matched pre post cap r
  | '$' :: '\'' :: r => post ++ getSubstitution matched pre post cap r
  | '$' :: '0' :: '1' :: r => cap ++ getSubstitution matched pre post cap r
  | '$' :: '1' :: r => cap ++ getSubstitution matched pre post cap r
  | '$' :: d :: r => '$' :: d :: getSubstitution matched pre post cap r
  | c :: rest => c :: getSubstitution matched pre post cap rest

/-- Per-element body of the font-fallback loop of `addOutlookCompatibility`
(applied to every element; the tag is not inspected).  `style.replace(re, s)`
concatenates the text before the first match, the replacement string after
`$`-substitution (`getSubstitution`), and the text after the match. -/
def outlookFontFix (_t : String) (a : Attrs) : Attrs :=
  let style := (getAttr a "style").getD ""
  if jsIncludes style "font-family" then
    match ffScan style.data with
    | none => a
    | some m =>
      if m.capture.isEmpty then a
      else
        let fonts := parseFonts ⟨m.capture⟩
        let hasOutlookSafeFont := fonts.any (fun f => OUTLOOK_SAFE_FONTS.contains f)
        if !hasOutlookSafeFont then
          let template : String :=
            "font-family: " ++ jsJoin ", " fonts ++ ", Arial, sans-serif"
          let newStyle : String :=
            ⟨m.pre ++
              getSubstitution (ffKey ++ m.ws ++ m.capture) m.pre m.post m.capture
                template.data ++ m.post⟩
          setAttr "style" newStyle a
        else a
  else a

/-- Stage 5, `addOutlookCompatibility`. -/
def addOutlookCompatibility (doc : List Node) (ctx : Ctx) : List Node × Ctx :=
  let doc1 := ensureHead doc
  let doc2 := appendToTagL "head" outlookCondNodes doc1
  let doc3 := mapElemsL outlookFontFix doc2
  (doc3, { ctx with optimizations := ctx.optimizations ++ ["Added Outlook compatibility fixes"] })

/-- The `unsupportedElements` selector list with its matching predicates. -/
def removalSelectors : List (String × (String → Attrs → Bool)) :=
  [("script", fun t _ => t == "script"),
   ("link[rel=\"stylesheet\"]", fun t a => t == "link" && getAttr a "rel" == some "stylesheet"),
   ("meta[name=\"viewport\"]", fun t a => t == "meta" && getAttr a "name" == some "viewport")]

/-- The `unsupportedElements.forEach` loop: per selector, count matches,
remove them all and record one warning when at least one matched. -/
def removePass : List (String × (String → Attrs → Bool)) → List Node → Ctx → List Node × Ctx
  | [], doc, ctx => (doc, ctx)
  | (sel, p) :: rest, doc, ctx =>
    let n := countElemsL p doc
    if n > 0 then
      removePass rest (removeAllL p doc)
        { ctx with issues := ctx.issues ++
            [warnIssue ("Removed " ++ toString n ++ " unsupported elements: " ++ sel)
              none "These elements are not supported in email clients and have been removed."] }
    else removePass rest doc ctx

/-- `style.split(';').map(prop => prop.trim()).filter(Boolean)`. -/
def styleProperties (s : String) : List String :=
  ((jsSplit ';' s).map jsTrim).filter (fun p => p != "")

/-- `prop.split(':')[0]?.trim()` is nonempty and in the allow-list. -/
def propAllowed (prop : String) : Bool :=
  let property := jsTrim ((jsSplit ':' prop).headD "")
  property != "" && EMAIL_SAFE_PROPERTIES.contains property

/-- Per-element body of the CSS-cleanup loop of `cleanupUnsupportedElements`;
`if (style)` skips absent and empty style attributes. -/
def cleanupStyleAttr (t : String) (a : Attrs) (issues : List Issue) :
    Attrs × List Issue :=
  match getAttr a "style" with
  | none => (a, issues)
  | some style =>
    if style == "" then (a, issues)
    else
      let properties := styleProperties style
      let cleanedProperties := properties.filter propAllowed
      if cleanedProperties.length != properties.length then
        (setAttr "style" (jsJoin "; " cleanedProperties) a,
         issues ++
           [warnIssue "Removed unsupported CSS properties"
             (some (if t == "" then "unknown" else t))
             "Use only email-safe CSS properties for consistent rendering."])
      else (a, issues)

/-- Stage 6, `cleanupUnsupportedElements`. -/
def cleanupUnsupportedElements (doc : List Node) (ctx : Ctx) : List Node × Ctx :=
  match removePass removalSelectors doc ctx with
  | (doc1, ctx1) =>
    match mapAccumList (fun t a _ issues => cleanupStyleAttr t a issues) doc1 ctx1.issues with
    | (doc2, issues2) =>
      (doc2,
        { ctx1 with
          issues := issues2,
          optimizations := ctx1.optimizations ++ ["Cleaned up unsupported elements and styles"] })

/-- The four meta tags appended by `addEmailMetaTags`. -/
def emailMetaTags : List Node :=
  [Node.elem "meta" [("charset", "UTF-8")] [],
   Node.elem "meta" [("http-equiv", "Content-Type"), ("content", "text/html; charset=UTF-8")] [],
   Node.elem "meta" [("name", "x-apple-disable-message-reformatting")] [],
   Node.elem "meta" [("name", "format-detection"), ("content", "telephone=no,address=no,email=no,date=no,url=no")] []]

/-- Stage 7, `addEmailMetaTags` (appends unconditionally). -/
def addEmailMetaTags (doc : List Node) (ctx : Ctx) : List Node × Ctx :=
  let doc1 := ensureHead doc
  let doc2 := appendToTagL "head" emailMetaTags doc1
  (doc2, { ctx with optimizations := ctx.optimizations ++ ["Added essential email meta tags"] })

/-- Stage 8, `validateEmailStructure` (diagnostics only, no mutation). -/
def validateEmailStructure (doc : List Node) (issues : List Issue) : List Issue :=
  let issues1 :=
    if countElemsL (fun t _ => t == "html") doc == 0 then
      issues ++
        [errorIssue "Missing HTML document structure"
          "Email should have proper HTML document structure with html, head, and body tags."]
    else issues
  let issues2 :=
    if countElemsL (fun t _ => t == "head") doc == 0 then
      issues1 ++
        [errorIssue "Missing HEAD section"
          "Email should have a HEAD section for meta tags and styles."]
    else issues1
  let issues3 :=
    if countElemsL (fun t _ => t == "body") doc == 0 then
      issues2 ++
        [errorIssue "Missing BODY section"
          "Email content should be wrapped in a BODY tag."]
    else issues2
  let imagesWithoutAlt := countElemsL (fun t a => t == "img" && getAttr a "alt" == none) doc
  if imagesWithoutAlt > 0 then
    issues3 ++
      [warnIssue (toString imagesWithoutAlt ++ " images missing alt attributes")
        none "Add alt attributes to all images for accessibility and when images are blocked."]
  else issues3

/-- `calculateCompatibilityScore`: the deductions are integers, so the final
`Math.round` is the identity and is omitted. -/
def calculateCompatibilityScore (issues : List Issue) : Int :=
  let errorWeight : Int := 20
  let warningWeight : Int := 5
  let errorCount : Int := (issues.filter (fun i => i.type == IssueType.error)).length
  let warningCount : Int := (issues.filter (fun i => i.type == IssueType.warning)).length
  let deductions := errorCount * errorWeight + warningCount * warningWeight
  max 0 (100 - deductions)

/-- `EmailCompatibilityResult`; `doc` is the tree whose serialization is the
`optimizedHtml` field of the source. -/
structure EmailCompatibilityResult where
  doc : List Node
  compatibilityScore : Int
  issues : List Issue
  optimizations : List String

/-- `optimizeForEmailClients`: the eight stages in order on the loaded tree,
then the score over the accumulated issues. -/
def optimizeForEmailClients (doc : List Node) : EmailCompatibilityResult :=
  match inlineStyles doc { issues := [], optimizations := [] } with
  | (d1, c1) =>
    match optimizeTableStructure d1 c1 with
    | (d2, c2) =>
      match addDarkModeSupport d2 c2 with
      | (d3, c3) =>
        match optimizeImages d3 c3 with
        | (d4, c4) =>
          match addOutlookCompatibility d4 c4 with
          | (d5, c5) =>
            match cleanupUnsupportedElements d5 c5 with
            | (d6, c6) =>
              match addEmailMetaTags d6 c6 with
              | (d7, c7) =>
                match validateEmailStructure d7 c7.issues with
                | finalIssues =>
                  { doc := d7,
                    compatibilityScore := calculateCompatibilityScore finalIssues,
                    issues := finalIssues,
                    optimizations := c7.optimizations }

/-! ### Failure propagation model (for the error-handling claim)

JavaScript exceptions are embedded as `Except String`.  In
`optimizeForEmailClients` the call `cheerio.load(html)` is evaluated *before*
the `try` block; the `catch` wraps whatever escapes the eight stages (and the
scoring) into the single `Error('Failed to optimize email for client
compatibility')`. -/

/-- Number of issues carrying a given message. -/
def countMsg (m : String) (issues : List Issue) : Nat :=
  (issues.filter (fun i => i.message == m)).length

/-- Number of warning issues carrying a given message. -/
def countWarnMsg (m : String) (issues : List Issue) : Nat :=
  (issues.filter (fun i => i.type == IssueType.warning && i.message == m)).length

/-- All inline-style declarations of a style string have an allowed property
name (the `filter` of the Sanitizer's cleanup loop drops nothing). -/
def styleSafe (s : String) : Bool :=
  (styleProperties s).all propAllowed

/-- The element's style attribute, when present, is email-safe. -/
def elemStyleSafe (a : Attrs) : Bool :=
  match getAttr a "style" with
  | none => true
  | some s => styleSafe s

/-- Tag/style pairs of all elements of a forest in document order (used to
inspect concrete outputs). -/
def collectTagStyles (l : List Node) : List (String × Option String) :=
  (mapAccumList (fun t a _ acc => (a, acc ++ [(t, getAttr a "style")])) l []).2

/-- The message of the single wrapped failure thrown by the `catch` block. -/
def wrappedFailureMessage : String := "Failed to optimize email for client compatibility"

/-- Run stages sequentially, aborting at the first failure. -/
def runStages {α : Type} : List (α → Except String α) → α → Except String α
  | [], x => .ok x
  | st :: rest, x =>
    match st x with
    | .error e => .error e
    | .ok y => runStages rest y

/-- Control-flow skeleton of `optimizeForEmailClients` lines 39–88: parse
outside the `try`, stages inside, `catch` replaces any stage failure with the
single wrapped failure. -/
def optimizeDriver {α β : Type} (load : Except String α)
    (stages : List (α → Except String α)) (finish : α → β) : Except String β :=
  match load with
  | .error e => .error e
  | .ok x =>
    match runStages stages x with
    | .error _ => .error wrappedFailureMessage
    | .ok y => .ok (finish y)

/-! ### The pipeline as a composition of stages on (tree, diagnostics) pairs -/

/-- Stage 1 on a pair. -/
def stage1 (p : List Node × Ctx) : List Node × Ctx := inlineStyles p.1 p.2
/-- Stage 2 on a pair. -/
def stage2 (p : List Node × Ctx) : List Node × Ctx := optimizeTableStructure p.1 p.2
/-- Stage 3 on a pair. -/
def stage3 (p : List Node × Ctx) : List Node × Ctx := addDarkModeSupport p.1 p.2
/-- Stage 4 on a pair. -/
def stage4 (p : List Node × Ctx) : List Node × Ctx := optimizeImages p.1 p.2
/-- Stage 5 on a pair. -/
def stage5 (p : List Node × Ctx) : List Node × Ctx := addOutlookCompatibility p.1 p.2
/-- Stage 6 on a pair. -/
def stage6 (p : List Node × Ctx) : List Node × Ctx := cleanupUnsupportedElements p.1 p.2
/-- Stage 7 on a pair. -/
def stage7 (p : List Node × Ctx) : List Node × Ctx := addEmailMetaTags p.1 p.2

/-- Stages 1–7 composed (stage 8, the validator, only reads). -/
def pipelineStages (doc : List Node) : List Node × Ctx :=
  stage7 (stage6 (stage5 (stage4 (stage3 (stage2 (stage1 (doc, ⟨[], []⟩)))))))

/-! ### Predicates used by the universal claims -/

/-- Elements whose subtrees the pipeline may delete wholesale: `<style>`
(Style Inliner) and the Sanitizer's removal selectors.  In trees produced by
the lenient HTML parser no `<table>`/`<img>` ever sits below one of these
(style/script content is raw text; link/meta are void elements). -/
def removableTag (t : String) (a : Attrs) : Bool :=
  t == "style" || t == "script" ||
  (t == "link" && getAttr a "rel" == some "stylesheet") ||
  (t == "meta" && getAttr a "name" == some "viewport")

/-- The element is a `<table>`. -/
def isTableTag (t : String) (_ : Attrs) : Bool := t == "table"

/-- The element is an `<img>`. -/
def isImgTag (t : String) (_ : Attrs) : Bool := t == "img"

/-- The element is a `<style>` tag. -/
def isStyleTag (t : String) (_ : Attrs) : Bool := t == "style"

/-- A `<table>` whose style string lacks the substring `border-collapse`
(the Style Inliner appends the default declaration to exactly these). -/
def tableLacksBC (t : String) (a : Attrs) : Bool :=
  t == "table" && !(jsIncludes ((getAttr a "style").getD "") "border-collapse")

/-- The literal appended by the Style Inliner to such tables. -/
def bcSuffix : String := "; border-collapse: collapse;"

/-- A `<table>` whose style string ends with the appended
`"; border-collapse: collapse;"`. -/
def tableWithBCSuffix (t : String) (a : Attrs) : Bool :=
  t == "table" &&
    (match getAttr a "style" with
     | none => false
     | some s => bcSuffix.data.isSuffixOf s.data)

/-- An `<img>` whose `alt` attribute is falsy (absent or empty). -/
def imgFalsyAlt (t : String) (a : Attrs) : Bool := t == "img" && attrFalsy a "alt"

/-- Non-images, and images carrying an `alt` attribute. -/
def imgHasAlt (t : String) (a : Attrs) : Bool := !(t == "img") || (getAttr a "alt").isSome

/-- No declaration of the style string has property name `border-collapse`. -/
def styleNoBCDecl (s : String) : Bool :=
  (styleProperties s).all (fun d => !(jsTrim ((jsSplit ':' d).headD "") == "border-collapse"))

/-- The element's style attribute, if any, has no `border-collapse`
declaration. -/
def elemNoBCDecl (a : Attrs) : Bool :=
  match getAttr a "style" with
  | none => true
  | some s => styleNoBCDecl s

/-! ### Concrete example documents -/

/-- A minimal well-formed document: `<html><head></head><body><p>hi</p></body></html>`. -/
def exMinimal : List Node :=
  [.elem "html" [] [.elem "head" [] [], .elem "body" [] [.elem "p" [] [.text "hi"]]]]

/-- One table layer (`<table><tr><td>…</td></tr></table>`), as the lenient
parser produces for well-formed nested-table markup. -/
def tbl (inner : List Node) : Node :=
  .elem "table" [] [.elem "tr" [] [.elem "td" [] inner]]

/-- A document containing 4 tables nested inside each other (nesting depth 4). -/
def exDepth4 : List Node :=
  [.elem "html" [] [.elem "head" [] [], .elem "body" [] [tbl [tbl [tbl [tbl []]]]]]]

/-- A document containing 5 tables nested inside each other (nesting depth 5). -/
def exDepth5 : List Node :=
  [.elem "html" [] [.elem "head" [] [], .elem "body" [] [tbl [tbl [tbl [tbl [tbl []]]]]]]]

/-- A document whose `<div>` has a quoted, non-Outlook-safe font in its
inline style, among other declarations. -/
def exFont : List Node :=
  [.elem "html" [] [.elem "head" [] [],
    .elem "body" [] [.elem "div"
      [("style", "color: red; font-family: \"CustomFont\"; margin: 0")] [.text "x"]]]]

/-- A document whose image has an `alt` attribute that is present but empty
(plus width and a display style, so only the alt-text warning can fire). -/
def exImgEmptyAlt : List Node :=
  [.elem "html" [] [.elem "head" [] [],
    .elem "body" [] [.elem "img"
      [("src", "x.png"), ("alt", ""), ("width", "100"), ("style", "display: block")] []]]]

/-- The same document with the `alt` attribute absent altogether. -/
def exImgNoAlt : List Node :=
  [.elem "html" [] [.elem "head" [] [],
    .elem "body" [] [.elem "img"
      [("src", "x.png"), ("width", "100"), ("style", "display: block")] []]]]

/-- Modelled from the spec: the Document Loader (the external lenient HTML
parser, `cheerio.load`, not part of this repository) synthesizes the implicit
`html`/`head`/`body` skeleton, so the completely empty input string loads as
the minimal tree `<html><head></head><body></body></html>` (§4.1). -/
def loadedEmptyDoc : List Node :=
  [.elem "html" [] [.elem "head" [] [], .elem "body" [] []]]

/-! ### Attribute lemmas -/

theorem getAttr_cons (k w n : String) (rest : Attrs) :
    getAttr ((k, w) :: rest) n = if k == n then some w else getAttr rest n := by
  by_cases h : (k == n) = true <;>
    simp [getAttr, List.find?_cons_of_pos, List.find?_cons_of_neg, h]

theorem getAttr_setAttr_self (n v : String) (a : Attrs) :
    getAttr (setAttr n v a) n = some v := by
  induction a with
  | nil => simp [setAttr, getAttr_cons, getAttr]
  | cons p rest ih =>
    obtain ⟨k, w⟩ := p
    by_cases h : (k == n) = true
    · simp [setAttr, h, getAttr_cons]
    · simp [setAttr, h, getAttr_cons, ih]

theorem getAttr_setAttr_ne (n m v : String) (a : Attrs) (h : n ≠ m) :
    getAttr (setAttr n v a) m = getAttr a m := by
  induction a with
  | nil => simp [setAttr, getAttr_cons, getAttr, h]
  | cons p rest ih =>
    obtain ⟨k, w⟩ := p
    by_cases hk : (k == n) = true
    · have hk' : k = n := by simpa using hk
      subst hk'
      simp [setAttr, getAttr_cons, h]
    · simp [setAttr, hk, getAttr_cons, ih]

/-! ### Trim lemmas -/

theorem dropWhile_dropWhile (p : α → Bool) (l : List α) :
    (l.dropWhile p).dropWhile p = l.dropWhile p := by
  induction l with
  | nil => rfl
  | cons a rest ih =>
    by_cases h : p a = true
    · simp [List.dropWhile_cons, h, ih]
    · simp [List.dropWhile_cons, h]

theorem dropWhile_of_prefix_of_eq_self {p : α → Bool} {m m' : List α}
    (hm : m.dropWhile p = m) (hp : m' <+: m) : m'.dropWhile p = m' := by
  cases m' with
  | nil => rfl
  | cons a t =>
    obtain ⟨r, hr⟩ := hp
    have hpa : p a = false := by
      by_contra hpa
      have hpa' : p a = true := by simpa using hpa
      rw [← hr] at hm
      rw [List.cons_append] at hm
      simp only [List.dropWhile_cons, hpa', if_true] at hm
      have hsuf : List.dropWhile p (t ++ r) <:+ t ++ r := List.dropWhile_suffix p
      have hle := hsuf.length_le
      have hlen := congrArg List.length hm
      simp only [List.length_cons, List.length_append] at hlen hle
      omega
    simp [List.dropWhile_cons, hpa]

theorem dropTrailing_prefix (q : α → Bool) (m : List α) :
    ((m.reverse.dropWhile q).reverse) <+: m := by
  have h : List.dropWhile q m.reverse <:+ m.reverse := List.dropWhile_suffix q
  have := List.reverse_prefix.mpr h
  simpa using this

theorem trimL_trimL (l : List Char) : trimL (trimL l) = trimL l := by
  unfold trimL
  have hu : (l.dropWhile isJsSpace).dropWhile isJsSpace = l.dropWhile isJsSpace :=
    dropWhile_dropWhile _ _
  have hpre : (((l.dropWhile isJsSpace).reverse.dropWhile isJsSpace).reverse) <+:
      l.dropWhile isJsSpace := dropTrailing_prefix _ _
  rw [dropWhile_of_prefix_of_eq_self hu hpre]
  rw [List.reverse_reverse, dropWhile_dropWhile]

theorem trimL_cons_space {d : Char} (hd : isJsSpace d = true) (l : List Char) :
    trimL (d :: l) = trimL l := by
  simp [trimL, List.dropWhile_cons, hd]

theorem mem_trimL {x : Char} {l : List Char} (h : x ∈ trimL l) : x ∈ l := by
  unfold trimL at h
  rw [List.mem_reverse] at h
  have hs : List.dropWhile isJsSpace (l.dropWhile isJsSpace).reverse <:+
      (l.dropWhile isJsSpace).reverse := List.dropWhile_suffix isJsSpace
  have h1 := hs.subset h
  rw [List.mem_reverse] at h1
  have hs2 : List.dropWhile isJsSpace l <:+ l := List.dropWhile_suffix isJsSpace
  exact hs2.subset h1

/-! ### Split/join lemmas -/

theorem splitOnCharL_ne_nil (c : Char) (l : List Char) : splitOnCharL c l ≠ [] := by
  induction l with
  | nil => simp [splitOnCharL]
  | cons a rest ih =>
    simp only [splitOnCharL]
    split
    · simp
    · cases h : splitOnCharL c rest <;> simp [h]

theorem not_mem_of_mem_splitOnCharL {c : Char} {l : List Char} {q : List Char}
    (h : q ∈ splitOnCharL c l) : c ∉ q := by
  induction l generalizing q with
  | nil =>
    simp [splitOnCharL] at h
    subst h; simp
  | cons a rest ih =>
    simp only [splitOnCharL] at h
    by_cases hac : a = c
    · rw [if_pos hac] at h
      rcases List.mem_cons.mp h with h1 | h1
      · subst h1; simp
      · exact ih h1
    · rw [if_neg hac] at h
      cases hs : splitOnCharL c rest with
      | nil => exact absurd hs (splitOnCharL_ne_nil c rest)
      | cons hd tl =>
        rw [hs] at h
        rcases List.mem_cons.mp h with h1 | h1
        · subst h1
          intro hmem
          rcases List.mem_cons.mp hmem with h2 | h2
          · exact hac h2.symm
          · exact ih (hs ▸ List.mem_cons_self hd tl) h2
        · exact ih (hs ▸ List.mem_cons_of_mem hd h1)

theorem splitOnCharL_append_sep (c : Char) (u w : List Char) :
    splitOnCharL c (u ++ c :: w) = splitOnCharL c u ++ splitOnCharL c w := by
  induction u with
  | nil => simp [splitOnCharL]
  | cons a u' ih =>
    by_cases hac : a = c
    · subst hac
      simp [splitOnCharL, ih]
    · simp only [List.cons_append, splitOnCharL, if_neg hac, List.append_eq]
      rw [ih]
      cases hs : splitOnCharL c u' with
      | nil => exact absurd hs (splitOnCharL_ne_nil c u')
      | cons hd tl => simp

theorem splitOnCharL_of_not_mem {c : Char} {u : List Char} (h : c ∉ u) :
    splitOnCharL c u = [u] := by
  induction u with
  | nil => rfl
  | cons a u' ih =>
    have hac : a ≠ c := fun he => h (he ▸ List.mem_cons_self a u')
    have h' : c ∉ u' := fun hm => h (List.mem_cons_of_mem a hm)
    simp [splitOnCharL, if_neg hac, ih h']

theorem map_trimL_splitOnCharL_cons_space {c d : Char} (hd : isJsSpace d = true)
    (hdc : d ≠ c) (w : List Char) :
    (splitOnCharL c (d :: w)).map trimL = (splitOnCharL c w).map trimL := by
  simp only [splitOnCharL, if_neg hdc]
  cases hs : splitOnCharL c w with
  | nil => exact absurd hs (splitOnCharL_ne_nil c w)
  | cons hd' tl => simp [trimL_cons_space hd]

/-- Re-splitting the `"; "`-join of trimmed, nonempty, `;`-free pieces gives
back exactly those pieces. -/
theorem resplit_join (ps : List (List Char))
    (h : ∀ q ∈ ps, q ≠ [] ∧ trimL q = q ∧ (';' : Char) ∉ q) :
    ((splitOnCharL ';' (joinSepL [';', ' '] ps)).map trimL).filter (fun q => !q.isEmpty) = ps := by
  induction ps with
  | nil => rfl
  | cons x ps ih =>
    obtain ⟨hx0, hx1, hx2⟩ := h x (List.mem_cons_self x ps)
    cases ps with
    | nil =>
      simp only [joinSepL, splitOnCharL_of_not_mem hx2, List.map_cons, List.map_nil, hx1]
      cases x with
      | nil => exact absurd rfl hx0
      | cons xc xs => simp [List.filter]
    | cons y ps' =>
      have hrest : ∀ q ∈ y :: ps', q ≠ [] ∧ trimL q = q ∧ (';' : Char) ∉ q :=
        fun q hq => h q (List.mem_cons_of_mem x hq)
      have hjoin : joinSepL [';', ' '] (x :: y :: ps') =
          x ++ ';' :: (' ' :: joinSepL [';', ' '] (y :: ps')) := by
        simp [joinSepL]
      rw [hjoin, splitOnCharL_append_sep, splitOnCharL_of_not_mem hx2,
        List.map_append, List.filter_append]
      rw [map_trimL_splitOnCharL_cons_space (by decide) (by decide)]
      rw [ih hrest]
      simp only [List.map_cons, List.map_nil, hx1]
      cases x with
      | nil => exact absurd rfl hx0
      | cons xc xs => simp [List.filter]

/-! ### Pipeline decomposition -/

theorem optimizeForEmailClients_eq (doc : List Node) :
    optimizeForEmailClients doc =
      { doc := (pipelineStages doc).1,
        compatibilityScore := calculateCompatibilityScore
          (validateEmailStructure (pipelineStages doc).1 (pipelineStages doc).2.issues),
        issues := validateEmailStructure (pipelineStages doc).1 (pipelineStages doc).2.issues,
        optimizations := (pipelineStages doc).2.optimizations } := by
  unfold optimizeForEmailClients
  split
  rename_i d1 c1 heq1
  split
  rename_i d2 c2 heq2
  split
  rename_i d3 c3 heq3
  split
  rename_i d4 c4 heq4
  split
  rename_i d5 c5 heq5
  split
  rename_i d6 c6 heq6
  split
  rename_i d7 c7 heq7
  have hp : pipelineStages doc = (d7, c7) := by
    unfold pipelineStages stage7 stage6 stage5 stage4 stage3 stage2 stage1
    simp only []
    rw [heq1]
    simp only []
    rw [heq2]
    simp only []
    rw [heq3]
    simp only []
    rw [heq4]
    simp only []
    rw [heq5]
    simp only []
    rw [heq6]
    simp only []
    rw [heq7]
  rw [hp]

theorem optimize_doc (doc : List Node) :
    (optimizeForEmailClients doc).doc = (pipelineStages doc).1 := by
  rw [optimizeForEmailClients_eq]

theorem optimize_issues (doc : List Node) :
    (optimizeForEmailClients doc).issues =
      validateEmailStructure (pipelineStages doc).1 (pipelineStages doc).2.issues := by
  rw [optimizeForEmailClients_eq]

theorem optimize_score (doc : List Node) :
    (optimizeForEmailClients doc).compatibilityScore =
      calculateCompatibilityScore
        (validateEmailStructure (pipelineStages doc).1 (pipelineStages doc).2.issues) := by
  rw [optimizeForEmailClients_eq]

theorem cleanup_fst (d : List Node) (c : Ctx) :
    (cleanupUnsupportedElements d c).1 =
      (mapAccumList (fun t a _ issues => cleanupStyleAttr t a issues)
        (removePass removalSelectors d c).1 (removePass removalSelectors d c).2.issues).1 := rfl

theorem meta_fst (d : List Node) (c : Ctx) :
    (addEmailMetaTags d c).1 = appendToTagL "head" emailMetaTags (ensureHead d) := rfl

theorem pipelineStages_fst (doc : List Node) :
    (pipelineStages doc).1 = appendToTagL "head" emailMetaTags
      (ensureHead (stage6 (stage5 (stage4 (stage3 (stage2 (stage1 (doc, ⟨[], []⟩))))))).1) := by
  unfold pipelineStages stage7
  rw [meta_fst]

/-! ### Traversal lemmas -/

theorem allElemsL_append (P : String → Attrs → Bool) (l1 l2 : List Node) :
    allElemsL P (l1 ++ l2) = (allElemsL P l1 && allElemsL P l2) := by
  induction l1 with
  | nil => simp [allElemsL]
  | cons n ns ih => simp [allElemsL, ih, Bool.and_assoc]

theorem allElemsL_mapAccumList {σ : Type} (P : String → Attrs → Bool)
    (f : String → Attrs → List Node → σ → Attrs × σ)
    (hf : ∀ t a cs s, P t (f t a cs s).1 = true) (l : List Node) :
    ∀ s : σ, allElemsL P (mapAccumList f l s).1 = true := by
  refine Node.indL (fun n => ∀ s, allElemsN P (mapAccumNode f n s).1 = true)
      (fun l => ∀ s, allElemsL P (mapAccumList f l s).1 = true) ?_ ?_ ?_ ?_ ?_ l
  · intro t a cs ih s
    simp only [mapAccumNode]
    cases hfa : f t a cs s with
    | mk a' s' =>
      cases hml : mapAccumList f cs s' with
      | mk cs' s'' =>
        simp only [allElemsN]
        have h1 := hf t a cs s
        rw [hfa] at h1
        have h2 := ih s'
        rw [hml] at h2
        simp only at h1 h2
        simp [h1, h2]
  · intro s _; rfl
  · intro s _; rfl
  · intro _; rfl
  · intro n ns ihn ihl s
    simp only [mapAccumList]
    cases hn : mapAccumNode f n s with
    | mk n' s' =>
      cases hl : mapAccumList f ns s' with
      | mk ns' s'' =>
        simp only [allElemsL]
        have h1 := ihn s
        rw [hn] at h1
        have h2 := ihl s'
        rw [hl] at h2
        simp only at h1 h2
        simp [h1, h2]

theorem allElemsL_appendToTagL (P : String → Attrs → Bool) (tag : String) (ws : List Node)
    (hws : allElemsL P ws = true) (l : List Node) (hl : allElemsL P l = true) :
    allElemsL P (appendToTagL tag ws l) = true := by
  refine Node.indL
      (fun n => allElemsN P n = true → allElemsN P (appendToTagN tag ws n) = true)
      (fun l => allElemsL P l = true → allElemsL P (appendToTagL tag ws l) = true)
      ?_ ?_ ?_ ?_ ?_ l hl
  · intro t a cs ih hn
    simp only [allElemsN] at hn
    rw [Bool.and_eq_true] at hn
    obtain ⟨hp, hcs⟩ := hn
    simp only [appendToTagN, allElemsN]
    by_cases ht : (t == tag) = true
    · simp only [ht, if_true]
      rw [allElemsL_append]
      simp [hp, ih hcs, hws]
    · simp only [ht, Bool.false_eq_true, if_false]
      simp [hp, ih hcs]
  · intro _ _; rfl
  · intro _ _; rfl
  · intro _; rfl
  · intro n ns ihn ihl h
    simp only [allElemsL] at h
    rw [Bool.and_eq_true] at h
    obtain ⟨h1, h2⟩ := h
    simp only [appendToTagL, allElemsL]
    simp [ihn h1, ihl h2]

theorem allElemsL_prependToTagL (P : String → Attrs → Bool) (tag : String) (ws : List Node)
    (hws : allElemsL P ws = true) (l : List Node) (hl : allElemsL P l = true) :
    allElemsL P (prependToTagL tag ws l) = true := by
  refine Node.indL
      (fun n => allElemsN P n = true → allElemsN P (prependToTagN tag ws n) = true)
      (fun l => allElemsL P l = true → allElemsL P (prependToTagL tag ws l) = true)
      ?_ ?_ ?_ ?_ ?_ l hl
  · intro t a cs ih hn
    simp only [allElemsN] at hn
    rw [Bool.and_eq_true] at hn
    obtain ⟨hp, hcs⟩ := hn
    simp only [prependToTagN, allElemsN]
    by_cases ht : (t == tag) = true
    · simp only [ht, if_true]
      rw [allElemsL_append]
      simp [hp, ih hcs, hws]
    · simp only [ht, Bool.false_eq_true, if_false]
      simp [hp, ih hcs]
  · intro _ _; rfl
  · intro _ _; rfl
  · intro _; rfl
  · intro n ns ihn ihl h
    simp only [allElemsL] at h
    rw [Bool.and_eq_true] at h
    obtain ⟨h1, h2⟩ := h
    simp only [prependToTagL, allElemsL]
    simp [ihn h1, ihl h2]

theorem allElemsL_ensureHead (P : String → Attrs → Bool)
    (hhead : P "head" [] = true) (l : List Node) (hl : allElemsL P l = true) :
    allElemsL P (ensureHead l) = true := by
  unfold ensureHead
  split
  · refine allElemsL_prependToTagL P "html" _ ?_ l hl
    simp [allElemsL, allElemsN, hhead]
  · exact hl

/-! ### Style-cleanup safety -/

theorem mk_bne_empty (q : List Char) : ((⟨q⟩ : String) != "") = !q.isEmpty := by
  cases q <;> rfl

theorem styleProperties_eq (s : String) :
    styleProperties s =
      (((splitOnCharL ';' s.data).map trimL).filter (fun q => !q.isEmpty)).map
        (fun q => (⟨q⟩ : String)) := by
  have hcomp : (jsTrim ∘ fun q : List Char => (⟨q⟩ : String)) =
      ((fun q : List Char => (⟨q⟩ : String)) ∘ trimL) := rfl
  have hpred : ((fun p : String => p != "") ∘ fun q : List Char => (⟨q⟩ : String)) =
      (fun q : List Char => !q.isEmpty) := by
    funext q; exact mk_bne_empty q
  unfold styleProperties jsSplit
  rw [List.map_map, hcomp, ← List.map_map, List.filter_map, hpred]

theorem jsJoin_map_mk (sep : String) (ps : List (List Char)) :
    jsJoin sep (ps.map (fun q => (⟨q⟩ : String))) = ⟨joinSepL sep.data ps⟩ := by
  unfold jsJoin
  rw [List.map_map]
  have h : (String.data ∘ fun q : List Char => (⟨q⟩ : String)) = id := rfl
  rw [h, List.map_id]

theorem filtered_pieces_spec (s : String) :
    ∀ q ∈ (((splitOnCharL ';' s.data).map trimL).filter (fun q => !q.isEmpty)),
      q ≠ [] ∧ trimL q = q ∧ (';' : Char) ∉ q := by
  intro q hq
  rw [List.mem_filter] at hq
  obtain ⟨hmem, hne⟩ := hq
  obtain ⟨pl, hpl, rfl⟩ := List.mem_map.mp hmem
  refine ⟨?_, trimL_trimL pl, fun hc => not_mem_of_mem_splitOnCharL hpl (mem_trimL hc)⟩
  intro h0
  rw [h0] at hne
  simp at hne

theorem styleSafe_join_filtered (s : String) :
    styleSafe (jsJoin "; " ((styleProperties s).filter propAllowed)) = true := by
  rw [styleProperties_eq s, List.filter_map, jsJoin_map_mk]
  unfold styleSafe
  rw [styleProperties_eq]
  have hcond : ∀ q ∈ (((splitOnCharL ';' s.data).map trimL).filter
      (fun q => !q.isEmpty)).filter
        (propAllowed ∘ fun q : List Char => (⟨q⟩ : String)),
      q ≠ [] ∧ trimL q = q ∧ (';' : Char) ∉ q :=
    fun q hq => filtered_pieces_spec s q (List.mem_filter.mp hq).1
  have hdata : (⟨joinSepL ("; " : String).data
      ((((splitOnCharL ';' s.data).map trimL).filter (fun q => !q.isEmpty)).filter
        (propAllowed ∘ fun q : List Char => (⟨q⟩ : String)))⟩ : String).data =
      joinSepL [';', ' ']
        ((((splitOnCharL ';' s.data).map trimL).filter (fun q => !q.isEmpty)).filter
          (propAllowed ∘ fun q : List Char => (⟨q⟩ : String))) := rfl
  rw [hdata, resplit_join _ hcond]
  rw [List.all_eq_true]
  intro x hx
  obtain ⟨ql, hql, rfl⟩ := List.mem_map.mp hx
  exact (List.mem_filter.mp hql).2

theorem elemStyleSafe_cleanupStyleAttr (t : String) (a : Attrs) (issues : List Issue) :
    elemStyleSafe (cleanupStyleAttr t a issues).1 = true := by
  unfold cleanupStyleAttr
  cases hst : getAttr a "style" with
  | none => simp [elemStyleSafe, hst]
  | some style =>
    by_cases hempty : (style == "") = true
    · have hz : style = "" := by simpa using hempty
      subst hz
      simp only [hempty, if_true]
      simp [elemStyleSafe, hst]
      decide
    · have hempty' : (style == "") = false := by simpa using hempty
      simp only [hempty', Bool.false_eq_true, if_false]
      by_cases hch : (((styleProperties style).filter propAllowed).length !=
          (styleProperties style).length) = true
      · simp only [hch, if_true]
        show elemStyleSafe (setAttr "style" (jsJoin "; " ((styleProperties style).filter propAllowed)) a) = true
        unfold elemStyleSafe
        rw [getAttr_setAttr_self]
        exact styleSafe_join_filtered style
      · have hch' := hch
        simp only [Bool.not_eq_true, bne_eq_false_iff_eq] at hch'
        simp only [hch, Bool.false_eq_true, if_false]
        show elemStyleSafe a = true
        unfold elemStyleSafe
        rw [hst]
        unfold styleSafe
        rw [List.all_eq_true]
        intro d hd
        have hall := List.filter_length_eq_length.mp hch'
        exact hall d hd

/-! ### Claim C3: only email-safe properties remain in output styles -/

theorem output_elemStyleSafe (doc : List Node) :
    allElemsL (fun _ a => elemStyleSafe a) (optimizeForEmailClients doc).doc = true := by
  rw [optimize_doc, pipelineStages_fst]
  refine allElemsL_appendToTagL _ "head" emailMetaTags (by decide) _ ?_
  refine allElemsL_ensureHead _ (by decide) _ ?_
  unfold stage6
  rw [cleanup_fst]
  exact allElemsL_mapAccumList _ _
    (fun t a _ issues => elemStyleSafe_cleanupStyleAttr t a issues) _ _

/-- C3: for every input tree, every inline style declaration remaining on any
element of the pipeline's output has a property name (text before the first
`:`, trimmed) in the 15-entry email-safe allow-list; the Sanitizer's cleanup
loop establishes this for every element and the later stages (Meta Injector,
Structural Validator) never re-introduce a disallowed property. -/
theorem claim_C3 (doc : List Node) :
    allElemsL (fun _ a => elemStyleSafe a) (optimizeForEmailClients doc).doc = true :=
  output_elemStyleSafe doc

/-! ### Counting lemmas for issues and elements -/

theorem countWarnMsg_append (m : String) (a b : List Issue) :
    countWarnMsg m (a ++ b) = countWarnMsg m a + countWarnMsg m b := by
  simp [countWarnMsg, List.filter_append]

theorem countWarnMsg_warn_single (m : String) (el : Option String) (advice : String) :
    countWarnMsg m [warnIssue m el advice] = 1 := by
  simp [countWarnMsg, warnIssue, List.filter]

theorem countWarnMsg_single_ne {m : String} {i : Issue} (h : i.message ≠ m) :
    countWarnMsg m [i] = 0 := by
  have : (i.type == IssueType.warning && i.message == m) = false := by
    simp [h]
  simp [countWarnMsg, List.filter, this]

theorem length_filter_le_of_imp {α : Type} (p q : α → Bool) (l : List α)
    (h : ∀ x, p x = true → q x = true) :
    (l.filter p).length ≤ (l.filter q).length := by
  induction l with
  | nil => simp
  | cons a rest ih =>
    by_cases hp : p a = true
    · rw [List.filter_cons_of_pos hp, List.filter_cons_of_pos (h a hp)]
      simpa using ih
    · rw [List.filter_cons_of_neg (by simpa using hp)]
      by_cases hq : q a = true
      · rw [List.filter_cons_of_pos hq]
        simp
        omega
      · rw [List.filter_cons_of_neg (by simpa using hq)]
        exact ih

/-- Strings with distinct first characters differ, whatever the appended tail. -/
theorem str_append_ne_of_head (p m x : String) (c1 c2 : Char)
    (h1 : p.data.head? = some c1) (h2 : m.data.head? = some c2) (hne : c1 ≠ c2) :
    p ++ x ≠ m := by
  intro he
  have hd := congrArg (fun s : String => s.data.head?) he
  simp only [String.data_append, List.head?_append, h1, h2, Option.or_some] at hd
  exact hne (by injection hd)

/-- A string ending in a long suffix differs from a shorter string. -/
theorem str_append_ne_of_length (x suf m : String)
    (h : m.data.length < suf.data.length) : x ++ suf ≠ m := by
  intro he
  have hl := congrArg (fun s : String => s.data.length) he
  simp only [String.data_append, List.length_append] at hl
  omega

/-! ### Counting through traversals -/

theorem countWarnMsg_mapAccumList (M : String) (q : String → Attrs → Bool)
    (f : String → Attrs → List Node → List Issue → Attrs × List Issue)
    (hf : ∀ t a cs s, countWarnMsg M (f t a cs s).2 =
      countWarnMsg M s + (if q t a then 1 else 0)) (l : List Node) :
    ∀ s, countWarnMsg M (mapAccumList f l s).2 =
      countWarnMsg M s + countElemsL q l := by
  refine Node.indL
      (fun n => ∀ s, countWarnMsg M (mapAccumNode f n s).2 =
        countWarnMsg M s + countElemsN q n)
      (fun l => ∀ s, countWarnMsg M (mapAccumList f l s).2 =
        countWarnMsg M s + countElemsL q l) ?_ ?_ ?_ ?_ ?_ l
  · intro t a cs ih s
    simp only [mapAccumNode, countElemsN]
    cases hfa : f t a cs s with
    | mk a' s' =>
      cases hml : mapAccumList f cs s' with
      | mk cs' s'' =>
        simp only []
        have h1 := hf t a cs s
        rw [hfa] at h1
        have h2 := ih s'
        rw [hml] at h2
        simp only [] at h1 h2
        rw [h2, h1]
        omega
  · intro str s; simp [mapAccumNode, countElemsN]
  · intro str s; simp [mapAccumNode, countElemsN]
  · intro s; simp [mapAccumList, countElemsL]
  · intro n ns ihn ihl s
    simp only [mapAccumList, countElemsL]
    cases hn : mapAccumNode f n s with
    | mk n' s' =>
      cases hl : mapAccumList f ns s' with
      | mk ns' s'' =>
        simp only []
        have h1 := ihn s
        rw [hn] at h1
        have h2 := ihl s'
        rw [hl] at h2
        simp only [] at h1 h2
        rw [h2, h1]
        omega

theorem countWarnMsg_mapAccumList_ge (M : String) (q : String → Attrs → Bool)
    (f : String → Attrs → List Node → List Issue → Attrs × List Issue)
    (hf : ∀ t a cs s, countWarnMsg M s + (if q t a then 1 else 0) ≤
      countWarnMsg M (f t a cs s).2) (l : List Node) :
    ∀ s, countWarnMsg M s + countElemsL q l ≤
      countWarnMsg M (mapAccumList f l s).2 := by
  refine Node.indL
      (fun n => ∀ s, countWarnMsg M s + countElemsN q n ≤
        countWarnMsg M (mapAccumNode f n s).2)
      (fun l => ∀ s, countWarnMsg M s + countElemsL q l ≤
        countWarnMsg M (mapAccumList f l s).2) ?_ ?_ ?_ ?_ ?_ l
  · intro t a cs ih s
    simp only [mapAccumNode, countElemsN]
    cases hfa : f t a cs s with
    | mk a' s' =>
      cases hml : mapAccumList f cs s' with
      | mk cs' s'' =>
        simp only []
        have h1 := hf t a cs s
        rw [hfa] at h1
        have h2 := ih s'
        rw [hml] at h2
        simp only [] at h1 h2
        omega
  · intro str s; simp [mapAccumNode, countElemsN]
  · intro str s; simp [mapAccumNode, countElemsN]
  · intro s; simp [mapAccumList, countElemsL]
  · intro n ns ihn ihl s
    simp only [mapAccumList, countElemsL]
    cases hn : mapAccumNode f n s with
    | mk n' s' =>
      cases hl : mapAccumList f ns s' with
      | mk ns' s'' =>
        simp only []
        have h1 := ihn s
        rw [hn] at h1
        have h2 := ihl s'
        rw [hl] at h2
        simp only [] at h1 h2
        omega

/-! ### Element counts through traversals -/

theorem countElemsL_append (q : String → Attrs → Bool) (l1 l2 : List Node) :
    countElemsL q (l1 ++ l2) = countElemsL q l1 + countElemsL q l2 := by
  induction l1 with
  | nil => simp [countElemsL]
  | cons n ns ih => simp [countElemsL, ih]; omega

theorem countElemsL_mapElemsL (q : String → Attrs → Bool) (f : String → Attrs → Attrs)
    (hf : ∀ t a, q t (f t a) = q t a) (l : List Node) :
    countElemsL q (mapElemsL f l) = countElemsL q l := by
  refine Node.indL (fun n => countElemsN q (mapElemsN f n) = countElemsN q n)
      (fun l => countElemsL q (mapElemsL f l) = countElemsL q l) ?_ ?_ ?_ ?_ ?_ l
  · intro t a cs ih
    simp [mapElemsN, countElemsN, hf, ih]
  · intro s; rfl
  · intro s; rfl
  · rfl
  · intro n ns ihn ihl
    simp [mapElemsL, countElemsL, ihn, ihl]

theorem countElemsL_mapElemsL_ge (p q : String → Attrs → Bool) (f : String → Attrs → Attrs)
    (hf : ∀ t a, p t a = true → q t (f t a) = true) (l : List Node) :
    countElemsL p l ≤ countElemsL q (mapElemsL f l) := by
  refine Node.indL (fun n => countElemsN p n ≤ countElemsN q (mapElemsN f n))
      (fun l => countElemsL p l ≤ countElemsL q (mapElemsL f l)) ?_ ?_ ?_ ?_ ?_ l
  · intro t a cs ih
    simp only [mapElemsN, countElemsN]
    by_cases hp : p t a = true
    · rw [hf t a hp]
      simp only [if_true, hp]
      omega
    · have : p t a = false := by simpa using hp
      rw [this]
      simp only [Bool.false_eq_true, if_false]
      by_cases hq : q t (f t a) = true <;> simp [hq] <;> omega
  · intro s; simp [mapElemsN, countElemsN]
  · intro s; simp [mapElemsN, countElemsN]
  · simp [mapElemsL, countElemsL]
  · intro n ns ihn ihl
    simp only [mapElemsL, countElemsL]
    omega

theorem countElemsL_mapAccumList {σ : Type} (q : String → Attrs → Bool)
    (f : String → Attrs → List Node → σ → Attrs × σ)
    (hf : ∀ t a cs s, q t (f t a cs s).1 = q t a) (l : List Node) :
    ∀ s, countElemsL q (mapAccumList f l s).1 = countElemsL q l := by
  refine Node.indL (fun n => ∀ s, countElemsN q (mapAccumNode f n s).1 = countElemsN q n)
      (fun l => ∀ s, countElemsL q (mapAccumList f l s).1 = countElemsL q l) ?_ ?_ ?_ ?_ ?_ l
  · intro t a cs ih s
    simp only [mapAccumNode, countElemsN]
    cases hfa : f t a cs s with
    | mk a' s' =>
      cases hml : mapAccumList f cs s' with
      | mk cs' s'' =>
        simp only [countElemsN]
        have h1 := hf t a cs s
        rw [hfa] at h1
        have h2 := ih s'
        rw [hml] at h2
        simp only [] at h1 h2
        rw [h2, h1]
  · intro str s; rfl
  · intro str s; rfl
  · intro s; rfl
  · intro n ns ihn ihl s
    simp only [mapAccumList, countElemsL]
    cases hn : mapAccumNode f n s with
    | mk n' s' =>
      cases hl : mapAccumList f ns s' with
      | mk ns' s'' =>
        simp only [countElemsL]
        have h1 := ihn s
        rw [hn] at h1
        have h2 := ihl s'
        rw [hl] at h2
        simp only [] at h1 h2
        rw [h2, h1]

theorem countElemsL_mapAccumList_ge {σ : Type} (q : String → Attrs → Bool)
    (f : String → Attrs → List Node → σ → Attrs × σ)
    (hf : ∀ t a cs s, q t a = true → q t (f t a cs s).1 = true) (l : List Node) :
    ∀ s, countElemsL q l ≤ countElemsL q (mapAccumList f l s).1 := by
  refine Node.indL (fun n => ∀ s, countElemsN q n ≤ countElemsN q (mapAccumNode f n s).1)
      (fun l => ∀ s, countElemsL q l ≤ countElemsL q (mapAccumList f l s).1) ?_ ?_ ?_ ?_ ?_ l
  · intro t a cs ih s
    simp only [mapAccumNode, countElemsN]
    cases hfa : f t a cs s with
    | mk a' s' =>
      cases hml : mapAccumList f cs s' with
      | mk cs' s'' =>
        simp only [countElemsN]
        have h2 := ih s'
        rw [hml] at h2
        simp only [] at h2
        by_cases hq : q t a = true
        · have h1 := hf t a cs s hq
          rw [hfa] at h1
          simp only [] at h1
          rw [hq, h1]
          omega
        · have : q t a = false := by simpa using hq
          rw [this]
          simp only [Bool.false_eq_true, if_false]
          by_cases hq' : q t a' = true <;> simp [hq'] <;> omega
  · intro str s; simp [mapAccumNode, countElemsN]
  · intro str s; simp [mapAccumNode, countElemsN]
  · intro s; simp [mapAccumList, countElemsL]
  · intro n ns ihn ihl s
    simp only [mapAccumList, countElemsL]
    cases hn : mapAccumNode f n s with
    | mk n' s' =>
      cases hl : mapAccumList f ns s' with
      | mk ns' s'' =>
        simp only [countElemsL]
        have h1 := ihn s
        rw [hn] at h1
        have h2 := ihl s'
        rw [hl] at h2
        simp only [] at h1 h2
        omega

theorem countElemsL_appendToTagL (q : String → Attrs → Bool) (tag : String) (ws : List Node)
    (hws : countElemsL q ws = 0) (l : List Node) :
    countElemsL q (appendToTagL tag ws l) = countElemsL q l := by
  refine Node.indL (fun n => countElemsN q (appendToTagN tag ws n) = countElemsN q n)
      (fun l => countElemsL q (appendToTagL tag ws l) = countElemsL q l) ?_ ?_ ?_ ?_ ?_ l
  · intro t a cs ih
    simp only [appendToTagN, countElemsN]
    by_cases ht : (t == tag) = true
    · simp only [ht, if_true]
      rw [countElemsL_append, ih, hws]
      omega
    · simp only [ht, Bool.false_eq_true, if_false, ih]
  · intro s; rfl
  · intro s; rfl
  · rfl
  · intro n ns ihn ihl
    simp [appendToTagL, countElemsL, ihn, ihl]

theorem countElemsL_prependToTagL (q : String → Attrs → Bool) (tag : String) (ws : List Node)
    (hws : countElemsL q ws = 0) (l : List Node) :
    countElemsL q (prependToTagL tag ws l) = countElemsL q l := by
  refine Node.indL (fun n => countElemsN q (prependToTagN tag ws n) = countElemsN q n)
      (fun l => countElemsL q (prependToTagL tag ws l) = countElemsL q l) ?_ ?_ ?_ ?_ ?_ l
  · intro t a cs ih
    simp only [prependToTagN, countElemsN]
    by_cases ht : (t == tag) = true
    · simp only [ht, if_true]
      rw [countElemsL_append, ih, hws]
      omega
    · simp only [ht, Bool.false_eq_true, if_false, ih]
  · intro s; rfl
  · intro s; rfl
  · rfl
  · intro n ns ihn ihl
    simp [prependToTagL, countElemsL, ihn, ihl]

theorem countElemsL_ensureHead (q : String → Attrs → Bool)
    (hhead : q "head" [] = false) (l : List Node) :
    countElemsL q (ensureHead l) = countElemsL q l := by
  unfold ensureHead
  split
  · exact countElemsL_prependToTagL q "html" _ (by simp [countElemsL, countElemsN, hhead]) l
  · rfl

/-! ### Removal and the nothing-under invariant -/

theorem countElemsL_le_of_imp (p q : String → Attrs → Bool)
    (h : ∀ t a, p t a = true → q t a = true) (l : List Node) :
    countElemsL p l ≤ countElemsL q l := by
  refine Node.indL (fun n => countElemsN p n ≤ countElemsN q n)
      (fun l => countElemsL p l ≤ countElemsL q l) ?_ ?_ ?_ ?_ ?_ l
  · intro t a cs ih
    simp only [countElemsN]
    by_cases hp : p t a = true
    · rw [hp, h t a hp]; omega
    · have hp' : p t a = false := by simpa using hp
      rw [hp']
      by_cases hq : q t a = true <;> simp [hq] <;> omega
  · intro s; simp [countElemsN]
  · intro s; simp [countElemsN]
  · simp [countElemsL]
  · intro n ns ihn ihl
    simp only [countElemsL]
    omega

theorem noneUnderL_of_count_zero (p q : String → Attrs → Bool) (l : List Node)
    (h : countElemsL q l = 0) : noneUnderL p q l = true := by
  refine Node.indL (fun n => countElemsN q n = 0 → noneUnderN p q n = true)
      (fun l => countElemsL q l = 0 → noneUnderL p q l = true) ?_ ?_ ?_ ?_ ?_ l h
  · intro t a cs ih hc
    simp only [countElemsN] at hc
    have hcs : countElemsL q cs = 0 := by omega
    simp only [noneUnderN]
    split
    · simpa using hcs
    · exact ih hcs
  · intro s _; rfl
  · intro s _; rfl
  · intro _; rfl
  · intro n ns ihn ihl hc
    simp only [countElemsL] at hc
    simp only [noneUnderL]
    rw [ihn (by omega), ihl (by omega)]
    rfl

theorem noneUnderL_mono (p p' q q' : String → Attrs → Bool)
    (hp : ∀ t a, p' t a = true → p t a = true)
    (hq : ∀ t a, q' t a = true → q t a = true) (l : List Node)
    (h : noneUnderL p q l = true) : noneUnderL p' q' l = true := by
  refine Node.indL (fun n => noneUnderN p q n = true → noneUnderN p' q' n = true)
      (fun l => noneUnderL p q l = true → noneUnderL p' q' l = true) ?_ ?_ ?_ ?_ ?_ l h
  · intro t a cs ih hn
    simp only [noneUnderN] at hn ⊢
    by_cases hpa : p' t a = true
    · simp only [hpa, if_true]
      have hpp : p t a = true := hp t a hpa
      rw [if_pos hpp] at hn
      have hz : countElemsL q cs = 0 := by simpa using hn
      have := countElemsL_le_of_imp q' q hq cs
      simp only [beq_iff_eq]
      omega
    · have hpa' : p' t a = false := by simpa using hpa
      simp only [hpa', Bool.false_eq_true, if_false]
      by_cases hpp : p t a = true
      · rw [if_pos hpp] at hn
        have hz : countElemsL q cs = 0 := by simpa using hn
        have hz' : countElemsL q' cs = 0 := by
          have := countElemsL_le_of_imp q' q hq cs
          omega
        exact noneUnderL_of_count_zero p' q' cs hz'
      · rw [if_neg hpp] at hn
        exact ih hn
  · intro s _; rfl
  · intro s _; rfl
  · intro _; rfl
  · intro n ns ihn ihl hc
    simp only [noneUnderL] at hc ⊢
    rw [Bool.and_eq_true] at hc
    rw [ihn hc.1, ihl hc.2]
    rfl

theorem countElemsL_removeAllL (p q : String → Attrs → Bool)
    (hpq : ∀ t a, q t a = true → p t a = false) (l : List Node)
    (h : noneUnderL p q l = true) :
    countElemsL q (removeAllL p l) = countElemsL q l := by
  refine Node.indL
      (fun n => noneUnderN p q n = true →
        countElemsL q ((removeAllN p n).elim [] (fun n' => [n'])) = countElemsN q n)
      (fun l => noneUnderL p q l = true →
        countElemsL q (removeAllL p l) = countElemsL q l) ?_ ?_ ?_ ?_ ?_ l h
  · intro t a cs ih hn
    simp only [noneUnderN] at hn
    simp only [removeAllN]
    by_cases hpa : p t a = true
    · rw [if_pos hpa] at hn
      have hz : countElemsL q cs = 0 := by simpa using hn
      have hqa : q t a = false := by
        by_cases hq : q t a = true
        · rw [hpq t a hq] at hpa; exact absurd hpa (by simp)
        · simpa using hq
      simp only [hpa, if_true, Option.elim]
      simp [countElemsL, countElemsN, hqa, hz]
    · have hpa' : p t a = false := by simpa using hpa
      rw [if_neg (by simp [hpa'])] at hn
      simp only [hpa', Bool.false_eq_true, if_false, Option.elim]
      simp only [countElemsL, countElemsN]
      rw [ih hn]
      omega
  · intro s _; simp [removeAllN, Option.elim, countElemsL, countElemsN]
  · intro s _; simp [removeAllN, Option.elim, countElemsL, countElemsN]
  · intro _; rfl
  · intro n ns ihn ihl hc
    simp only [noneUnderL] at hc
    rw [Bool.and_eq_true] at hc
    simp only [removeAllL, countElemsL]
    cases hrm : removeAllN p n with
    | none =>
      have h1 := ihn hc.1
      rw [hrm] at h1
      simp only [Option.elim, countElemsL] at h1
      rw [ihl hc.2]
      omega
    | some n' =>
      have h1 := ihn hc.1
      rw [hrm] at h1
      simp only [Option.elim, countElemsL] at h1
      simp only [countElemsL]
      rw [ihl hc.2]
      omega

/-! ### Preservation of the nothing-under invariant -/

theorem noneUnderL_append (p q : String → Attrs → Bool) (l1 l2 : List Node) :
    noneUnderL p q (l1 ++ l2) = (noneUnderL p q l1 && noneUnderL p q l2) := by
  induction l1 with
  | nil => simp [noneUnderL]
  | cons n ns ih => simp [noneUnderL, ih, Bool.and_assoc]

theorem countElemsL_removeAllL_le (q r : String → Attrs → Bool) (cs : List Node) :
    countElemsL q (removeAllL r cs) ≤ countElemsL q cs := by
  refine Node.indL
      (fun n => countElemsL q ((removeAllN r n).elim [] (fun n' => [n'])) ≤ countElemsN q n)
      (fun cs => countElemsL q (removeAllL r cs) ≤ countElemsL q cs) ?_ ?_ ?_ ?_ ?_ cs
  · intro t' a' cs' ih'
    simp only [removeAllN]
    by_cases hr : r t' a' = true
    · simp [hr, Option.elim, countElemsL, countElemsN]
    · have hr' : r t' a' = false := by simpa using hr
      simp only [hr', Bool.false_eq_true, if_false, Option.elim]
      simp only [countElemsL, countElemsN]
      omega
  · intro s; simp [removeAllN, Option.elim, countElemsL, countElemsN]
  · intro s; simp [removeAllN, Option.elim, countElemsL, countElemsN]
  · simp [removeAllL, countElemsL]
  · intro n' ns' ihn' ihl'
    simp only [removeAllL, countElemsL]
    cases hrm : removeAllN r n' with
    | none =>
      rw [hrm] at ihn'
      simp only [Option.elim, countElemsL] at ihn'
      simp only []
      omega
    | some nn =>
      rw [hrm] at ihn'
      simp only [Option.elim, countElemsL] at ihn'
      simp only [countElemsL]
      omega

theorem noneUnderL_removeAllL (p q r : String → Attrs → Bool) (l : List Node)
    (h : noneUnderL p q l = true) : noneUnderL p q (removeAllL r l) = true := by
  refine Node.indL
      (fun n => noneUnderN p q n = true →
        noneUnderL p q ((removeAllN r n).elim [] (fun n' => [n'])) = true)
      (fun l => noneUnderL p q l = true → noneUnderL p q (removeAllL r l) = true)
      ?_ ?_ ?_ ?_ ?_ l h
  · intro t a cs ih hn
    simp only [noneUnderN] at hn
    simp only [removeAllN]
    by_cases hra : r t a = true
    · simp [hra, Option.elim, noneUnderL]
    · have hra' : r t a = false := by simpa using hra
      simp only [hra', Bool.false_eq_true, if_false, Option.elim]
      simp only [noneUnderL, noneUnderN, Bool.and_true]
      by_cases hpa : p t a = true
      · rw [if_pos hpa] at hn ⊢
        have hz : countElemsL q cs = 0 := by simpa using hn
        have hle := countElemsL_removeAllL_le q r cs
        simp only [beq_iff_eq]
        omega
      · rw [if_neg hpa] at hn ⊢
        exact ih hn
  · intro s _; simp [removeAllN, Option.elim, noneUnderL, noneUnderN]
  · intro s _; simp [removeAllN, Option.elim, noneUnderL, noneUnderN]
  · intro _; rfl
  · intro n ns ihn ihl hc
    simp only [noneUnderL] at hc
    rw [Bool.and_eq_true] at hc
    simp only [removeAllL]
    cases hrm : removeAllN r n with
    | none =>
      have h1 := ihn hc.1
      rw [hrm] at h1
      simp only [Option.elim, noneUnderL] at h1
      exact ihl hc.2
    | some n' =>
      have h1 := ihn hc.1
      rw [hrm] at h1
      simp only [Option.elim, noneUnderL, Bool.and_true] at h1
      simp only [noneUnderL]
      rw [h1, ihl hc.2]
      rfl

theorem noneUnderL_mapElemsL (p q : String → Attrs → Bool) (f : String → Attrs → Attrs)
    (hp : ∀ t a, p t (f t a) = p t a) (hq : ∀ t a, q t (f t a) = q t a) (l : List Node)
    (h : noneUnderL p q l = true) : noneUnderL p q (mapElemsL f l) = true := by
  refine Node.indL
      (fun n => noneUnderN p q n = true → noneUnderN p q (mapElemsN f n) = true)
      (fun l => noneUnderL p q l = true → noneUnderL p q (mapElemsL f l) = true)
      ?_ ?_ ?_ ?_ ?_ l h
  · intro t a cs ih hn
    simp only [noneUnderN] at hn ⊢
    simp only [mapElemsN] at *
    rw [hp]
    by_cases hpa : p t a = true
    · rw [if_pos hpa] at hn ⊢
      rw [countElemsL_mapElemsL q f hq cs]
      exact hn
    · rw [if_neg hpa] at hn ⊢
      exact ih hn
  · intro s _; rfl
  · intro s _; rfl
  · intro _; rfl
  · intro n ns ihn ihl hc
    simp only [noneUnderL] at hc ⊢
    rw [Bool.and_eq_true] at hc
    rw [ihn hc.1, ihl hc.2]
    rfl

theorem noneUnderL_mapAccumList {σ : Type} (p q : String → Attrs → Bool)
    (f : String → Attrs → List Node → σ → Attrs × σ)
    (hp : ∀ t a cs s, p t (f t a cs s).1 = p t a)
    (hq : ∀ t a cs s, q t (f t a cs s).1 = q t a) (l : List Node) :
    ∀ s, noneUnderL p q l = true → noneUnderL p q (mapAccumList f l s).1 = true := by
  refine Node.indL
      (fun n => ∀ s, noneUnderN p q n = true → noneUnderN p q (mapAccumNode f n s).1 = true)
      (fun l => ∀ s, noneUnderL p q l = true → noneUnderL p q (mapAccumList f l s).1 = true)
      ?_ ?_ ?_ ?_ ?_ l
  · intro t a cs ih s hn
    simp only [noneUnderN] at hn
    simp only [mapAccumNode]
    cases hfa : f t a cs s with
    | mk a' s' =>
      cases hml : mapAccumList f cs s' with
      | mk cs' s'' =>
        simp only [noneUnderN]
        have hpa := hp t a cs s
        rw [hfa] at hpa
        simp only [] at hpa
        rw [hpa]
        by_cases hpt : p t a = true
        · rw [if_pos hpt] at hn ⊢
          have hcnt := countElemsL_mapAccumList q f hq cs s'
          rw [hml] at hcnt
          simp only [] at hcnt
          rw [hcnt]
          exact hn
        · rw [if_neg hpt] at hn ⊢
          have := ih s' hn
          rw [hml] at this
          exact this
  · intro str s _; rfl
  · intro str s _; rfl
  · intro s _; rfl
  · intro n ns ihn ihl s hc
    simp only [noneUnderL] at hc
    rw [Bool.and_eq_true] at hc
    simp only [mapAccumList]
    cases hn : mapAccumNode f n s with
    | mk n' s' =>
      cases hl : mapAccumList f ns s' with
      | mk ns' s'' =>
        simp only [noneUnderL]
        have h1 := ihn s hc.1
        rw [hn] at h1
        have h2 := ihl s' hc.2
        rw [hl] at h2
        simp only [] at h1 h2
        rw [h1, h2]
        rfl

theorem noneUnderL_appendToTagL (p q : String → Attrs → Bool) (tag : String) (ws : List Node)
    (hwsq : countElemsL q ws = 0) (hwsn : noneUnderL p q ws = true) (l : List Node)
    (h : noneUnderL p q l = true) : noneUnderL p q (appendToTagL tag ws l) = true := by
  refine Node.indL
      (fun n => noneUnderN p q n = true → noneUnderN p q (appendToTagN tag ws n) = true)
      (fun l => noneUnderL p q l = true → noneUnderL p q (appendToTagL tag ws l) = true)
      ?_ ?_ ?_ ?_ ?_ l h
  · intro t a cs ih hn
    simp only [noneUnderN] at hn ⊢
    simp only [appendToTagN]
    by_cases hpt : p t a = true
    · rw [if_pos hpt] at hn ⊢
      have hz : countElemsL q cs = 0 := by simpa using hn
      have hle : countElemsL q (appendToTagL tag ws cs) = countElemsL q cs :=
        countElemsL_appendToTagL q tag ws hwsq cs
      by_cases ht : (t == tag) = true
      · simp only [ht, if_true]
        rw [countElemsL_append, hle, hwsq]
        simp only [beq_iff_eq]
        omega
      · simp only [ht, Bool.false_eq_true, if_false]
        rw [hle]
        exact hn
    · rw [if_neg hpt] at hn ⊢
      by_cases ht : (t == tag) = true
      · simp only [ht, if_true]
        rw [noneUnderL_append]
        rw [ih hn, hwsn]
        rfl
      · simp only [ht, Bool.false_eq_true, if_false]
        exact ih hn
  · intro s _; rfl
  · intro s _; rfl
  · intro _; rfl
  · intro n ns ihn ihl hc
    simp only [noneUnderL] at hc ⊢
    rw [Bool.and_eq_true] at hc
    rw [ihn hc.1, ihl hc.2]
    rfl

theorem noneUnderL_prependToTagL (p q : String → Attrs → Bool) (tag : String) (ws : List Node)
    (hwsq : countElemsL q ws = 0) (hwsn : noneUnderL p q ws = true) (l : List Node)
    (h : noneUnderL p q l = true) : noneUnderL p q (prependToTagL tag ws l) = true := by
  refine Node.indL
      (fun n => noneUnderN p q n = true → noneUnderN p q (prependToTagN tag ws n) = true)
      (fun l => noneUnderL p q l = true → noneUnderL p q (prependToTagL tag ws l) = true)
      ?_ ?_ ?_ ?_ ?_ l h
  · intro t a cs ih hn
    simp only [noneUnderN] at hn ⊢
    simp only [prependToTagN]
    by_cases hpt : p t a = true
    · rw [if_pos hpt] at hn ⊢
      have hz : countElemsL q cs = 0 := by simpa using hn
      have hle : countElemsL q (prependToTagL tag ws cs) = countElemsL q cs :=
        countElemsL_prependToTagL q tag ws hwsq cs
      by_cases ht : (t == tag) = true
      · simp only [ht, if_true]
        rw [countElemsL_append, hle, hwsq]
        simp only [beq_iff_eq]
        omega
      · simp only [ht, Bool.false_eq_true, if_false]
        rw [hle]
        exact hn
    · rw [if_neg hpt] at hn ⊢
      by_cases ht : (t == tag) = true
      · simp only [ht, if_true]
        rw [noneUnderL_append]
        rw [ih hn, hwsn]
        rfl
      · simp only [ht, Bool.false_eq_true, if_false]
        exact ih hn
  · intro s _; rfl
  · intro s _; rfl
  · intro _; rfl
  · intro n ns ihn ihl hc
    simp only [noneUnderL] at hc ⊢
    rw [Bool.and_eq_true] at hc
    rw [ihn hc.1, ihl hc.2]
    rfl

theorem noneUnderL_ensureHead (p q : String → Attrs → Bool)
    (hq : q "head" [] = false) (hp : p "head" [] = false) (l : List Node)
    (h : noneUnderL p q l = true) : noneUnderL p q (ensureHead l) = true := by
  unfold ensureHead
  split
  · refine noneUnderL_prependToTagL p q "html" _ ?_ ?_ l h
    · simp [countElemsL, countElemsN, hq]
    · simp [noneUnderL, noneUnderN, hp]
  · exact h

/-! ### Preservation of element-wise invariants -/

theorem allElemsL_mapElemsL_preserve (P : String → Attrs → Bool) (f : String → Attrs → Attrs)
    (hf : ∀ t a, P t a = true → P t (f t a) = true) (l : List Node)
    (h : allElemsL P l = true) : allElemsL P (mapElemsL f l) = true := by
  refine Node.indL (fun n => allElemsN P n = true → allElemsN P (mapElemsN f n) = true)
      (fun l => allElemsL P l = true → allElemsL P (mapElemsL f l) = true) ?_ ?_ ?_ ?_ ?_ l h
  · intro t a cs ih hn
    simp only [allElemsN, Bool.and_eq_true] at hn
    simp only [mapElemsN, allElemsN]
    rw [hf t a hn.1, ih hn.2]
    rfl
  · intro s _; rfl
  · intro s _; rfl
  · intro _; rfl
  · intro n ns ihn ihl hc
    simp only [allElemsL, Bool.and_eq_true] at hc
    simp only [mapElemsL, allElemsL]
    rw [ihn hc.1, ihl hc.2]
    rfl

theorem allElemsL_mapAccumList_preserve {σ : Type} (P : String → Attrs → Bool)
    (f : String → Attrs → List Node → σ → Attrs × σ)
    (hf : ∀ t a cs s, P t a = true → P t (f t a cs s).1 = true) (l : List Node) :
    ∀ s, allElemsL P l = true → allElemsL P (mapAccumList f l s).1 = true := by
  refine Node.indL
      (fun n => ∀ s, allElemsN P n = true → allElemsN P (mapAccumNode f n s).1 = true)
      (fun l => ∀ s, allElemsL P l = true → allElemsL P (mapAccumList f l s).1 = true)
      ?_ ?_ ?_ ?_ ?_ l
  · intro t a cs ih s hn
    simp only [allElemsN, Bool.and_eq_true] at hn
    simp only [mapAccumNode]
    cases hfa : f t a cs s with
    | mk a' s' =>
      cases hml : mapAccumList f cs s' with
      | mk cs' s'' =>
        simp only [allElemsN]
        have h1 := hf t a cs s hn.1
        rw [hfa] at h1
        have h2 := ih s' hn.2
        rw [hml] at h2
        simp only [] at h1 h2
        rw [h1, h2]
        rfl
  · intro str s _; rfl
  · intro str s _; rfl
  · intro s _; rfl
  · intro n ns ihn ihl s hc
    simp only [allElemsL, Bool.and_eq_true] at hc
    simp only [mapAccumList]
    cases hn : mapAccumNode f n s with
    | mk n' s' =>
      cases hl : mapAccumList f ns s' with
      | mk ns' s'' =>
        simp only [allElemsL]
        have h1 := ihn s hc.1
        rw [hn] at h1
        have h2 := ihl s' hc.2
        rw [hl] at h2
        simp only [] at h1 h2
        rw [h1, h2]
        rfl

theorem allElemsL_removeAllL (P r : String → Attrs → Bool) (l : List Node)
    (h : allElemsL P l = true) : allElemsL P (removeAllL r l) = true := by
  refine Node.indL
      (fun n => allElemsN P n = true →
        allElemsL P ((removeAllN r n).elim [] (fun n' => [n'])) = true)
      (fun l => allElemsL P l = true → allElemsL P (removeAllL r l) = true)
      ?_ ?_ ?_ ?_ ?_ l h
  · intro t a cs ih hn
    simp only [allElemsN, Bool.and_eq_true] at hn
    simp only [removeAllN]
    by_cases hra : r t a = true
    · simp [hra, Option.elim, allElemsL]
    · have hra' : r t a = false := by simpa using hra
      simp only [hra', Bool.false_eq_true, if_false, Option.elim]
      simp only [allElemsL, allElemsN, Bool.and_true]
      rw [hn.1, ih hn.2]
      rfl
  · intro s _; simp [removeAllN, Option.elim, allElemsL, allElemsN]
  · intro s _; simp [removeAllN, Option.elim, allElemsL, allElemsN]
  · intro _; rfl
  · intro n ns ihn ihl hc
    simp only [allElemsL, Bool.and_eq_true] at hc
    simp only [removeAllL]
    cases hrm : removeAllN r n with
    | none => exact ihl hc.2
    | some n' =>
      have h1 := ihn hc.1
      rw [hrm] at h1
      simp only [Option.elim, allElemsL, Bool.and_true] at h1
      simp only [allElemsL]
      rw [h1, ihl hc.2]
      rfl

/-! ### Font regular-expression lemmas -/

theorem prefix_split {α : Type} {l m : List α} (hp : m <+: l) :
    l = m ++ l.drop m.length := by
  obtain ⟨r, hr⟩ := hp
  rw [← hr, List.drop_left]

theorem ffSplitBody_append (body : List Char) (hb : body ≠ []) :
    (ffSplitBody body).1 ++ (ffSplitBody body).2 = body ∧ (ffSplitBody body).2 ≠ [] := by
  unfold ffSplitBody
  by_cases hcap : (body.drop (body.takeWhile isJsSpace).length).isEmpty = true
  · have hwb : body.takeWhile isJsSpace = body := by
      have h1 := prefix_split
        (show List.takeWhile isJsSpace body <+: body from List.takeWhile_prefix isJsSpace)
      have h2 : body.drop (body.takeWhile isJsSpace).length = [] := List.isEmpty_iff.mp hcap
      rw [h2, List.append_nil] at h1
      exact h1.symm
    simp only [hcap, if_true]
    constructor
    · rw [List.dropLast_eq_take, List.take_append_drop]
      exact hwb
    · have hlen : (body.takeWhile isJsSpace).length = body.length := by rw [hwb]
      have hpos : 0 < body.length := List.length_pos.mpr hb
      intro hnil
      have hc := congrArg List.length hnil
      rw [List.length_drop] at hc
      simp only [List.length_nil] at hc
      omega
  · simp only [hcap, Bool.false_eq_true, if_false]
    constructor
    · exact (prefix_split
        (show List.takeWhile isJsSpace body <+: body from List.takeWhile_prefix isJsSpace)).symm
    · simpa using hcap

theorem ffScan_sound (l : List Char) :
    ∀ m, ffScan l = some m →
      l = m.pre ++ ffKey ++ m.ws ++ m.capture ++ m.post ∧ m.capture ≠ [] := by
  induction l with
  | nil => intro m h; simp [ffScan] at h
  | cons c rest ih =>
    intro m h
    rw [ffScan] at h
    by_cases hpre : ffKey.isPrefixOf (c :: rest) = true
    · rw [if_pos hpre] at h
      by_cases hbad : (((c :: rest).drop ffKey.length).isEmpty ||
          (((c :: rest).drop ffKey.length).headD ' ' == ';')) = true
      · rw [if_pos hbad] at h
        cases hs : ffScan rest with
        | none => rw [hs] at h; exact absurd h (by simp)
        | some m' =>
          rw [hs] at h
          simp only [Option.some.injEq] at h
          subst h
          obtain ⟨ih1, ih2⟩ := ih m' hs
          refine ⟨?_, ih2⟩
          simp only [List.cons_append]
          rw [← ih1]
      · rw [if_neg hbad] at h
        simp only [Option.some.injEq] at h
        subst h
        rw [Bool.or_eq_true, not_or] at hbad
        obtain ⟨hne, hhead⟩ := hbad
        have hkey : c :: rest = ffKey ++ (c :: rest).drop ffKey.length :=
          prefix_split (List.isPrefixOf_iff_prefix.mp hpre)
        have hbody : (c :: rest).drop ffKey.length =
            ((c :: rest).drop ffKey.length).takeWhile (fun ch => ch ≠ ';') ++
            ((c :: rest).drop ffKey.length).drop
              (((c :: rest).drop ffKey.length).takeWhile (fun ch => ch ≠ ';')).length :=
          prefix_split (List.takeWhile_prefix _)
        have hbne : ((c :: rest).drop ffKey.length).takeWhile (fun ch => ch ≠ ';') ≠ [] := by
          cases hae : (c :: rest).drop ffKey.length with
          | nil => rw [hae] at hne; simp at hne
          | cons x xs =>
            rw [hae] at hhead
            simp only [List.headD_cons] at hhead
            have hx : x ≠ ';' := by simpa using hhead
            rw [List.takeWhile_cons]
            simp [hx]
        obtain ⟨hsplit, hcapne⟩ := ffSplitBody_append _ hbne
        refine ⟨?_, hcapne⟩
        simp only [List.nil_append]
        rw [List.append_assoc ffKey, hsplit, List.append_assoc, ← hbody, ← hkey]
    · rw [if_neg hpre] at h
      cases hs : ffScan rest with
      | none => rw [hs] at h; exact absurd h (by simp)
      | some m' =>
        rw [hs] at h
        simp only [Option.some.injEq] at h
        subst h
        obtain ⟨ih1, ih2⟩ := ih m' hs
        refine ⟨?_, ih2⟩
        simp only [List.cons_append]
        rw [← ih1]

theorem ffKey_prefix_length {u : List Char}
    (h : ffKey.isPrefixOf (u ++ bcSuffix.data) = true) : ffKey.length ≤ u.length := by
  by_contra hlt
  push_neg at hlt
  have hpre := List.isPrefixOf_iff_prefix.mp h
  have htake : ffKey = (u ++ bcSuffix.data).take ffKey.length := by
    obtain ⟨t, ht⟩ := hpre
    rw [← ht, List.take_left]
  have hi : ffKey.length = u.length + (ffKey.length - u.length) := by omega
  rw [hi, List.take_append] at htake
  have hpos : 0 < ffKey.length - u.length := by omega
  have hmem : (';' : Char) ∈ ffKey := by
    rw [htake]
    apply List.mem_append_right
    have : bcSuffix.data = ';' :: (bcSuffix.data.tail) := rfl
    rw [this]
    cases hk : ffKey.length - u.length with
    | zero => omega
    | succ i => simp [List.take_succ_cons]
  exact absurd hmem (by decide)

theorem takeWhile_le_of_sep (u' bcTail : List Char) :
    ((u' ++ ';' :: bcTail).takeWhile (fun ch => ch ≠ ';')).length ≤ u'.length := by
  rw [List.takeWhile_append]
  have hsep : ((';' :: bcTail).takeWhile (fun ch => ch ≠ ';')) = [] := by
    rw [List.takeWhile_cons]
    simp
  split
  · rw [hsep, List.append_nil]
  · exact (List.takeWhile_prefix _).length_le

/-- The `font-family` match never extends into a trailing
`"; border-collapse: collapse;"`: the post part keeps that suffix. -/
theorem ffScan_post_suffix (x : List Char) :
    ∀ m, ffScan (x ++ bcSuffix.data) = some m → ∃ y, m.post = y ++ bcSuffix.data := by
  induction x with
  | nil =>
    intro m h
    have hnone : ffScan (([] : List Char) ++ bcSuffix.data) = none := by decide
    rw [hnone] at h
    exact absurd h (by simp)
  | cons a x' ih =>
    intro m h
    rw [List.cons_append, ffScan] at h
    by_cases hpre : ffKey.isPrefixOf (a :: (x' ++ bcSuffix.data)) = true
    · rw [if_pos hpre] at h
      by_cases hbad : (((a :: (x' ++ bcSuffix.data)).drop ffKey.length).isEmpty ||
          (((a :: (x' ++ bcSuffix.data)).drop ffKey.length).headD ' ' == ';')) = true
      · rw [if_pos hbad] at h
        cases hs : ffScan (x' ++ bcSuffix.data) with
        | none => rw [hs] at h; exact absurd h (by simp)
        | some m' =>
          rw [hs] at h
          simp only [Option.some.injEq] at h
          subst h
          exact ih m' hs
      · rw [if_neg hbad] at h
        simp only [Option.some.injEq] at h
        subst h
        have hlen : ffKey.length ≤ (a :: x').length := by
          apply @ffKey_prefix_length (a :: x')
          simpa [List.cons_append] using hpre
        have hafter : (a :: (x' ++ bcSuffix.data)).drop ffKey.length =
            ((a :: x').drop ffKey.length) ++ bcSuffix.data := by
          rw [← List.cons_append, List.drop_append_of_le_length hlen]
        have hbc : bcSuffix.data = ';' :: bcSuffix.data.tail := rfl
        simp only []
        rw [hafter]
        have hblen : ((((a :: x').drop ffKey.length) ++ bcSuffix.data).takeWhile
            (fun ch => ch ≠ ';')).length ≤ ((a :: x').drop ffKey.length).length := by
          conv_lhs => rw [hbc]
          exact takeWhile_le_of_sep _ _
        exact ⟨_, List.drop_append_of_le_length hblen⟩
    · rw [if_neg hpre] at h
      cases hs : ffScan (x' ++ bcSuffix.data) with
      | none => rw [hs] at h; exact absurd h (by simp)
      | some m' =>
        rw [hs] at h
        simp only [Option.some.injEq] at h
        subst h
        exact ih m' hs

theorem hasSubstrL_append_right (needle u v : List Char)
    (h : needle.isPrefixOf v = true) : hasSubstrL needle (u ++ v) = true := by
  induction u with
  | nil =>
    cases v with
    | nil =>
      have hn : needle = [] := by
        have := List.isPrefixOf_iff_prefix.mp h
        simpa using this
      simp [hasSubstrL, hn]
    | cons x xs => simp [hasSubstrL, h]
  | cons a u' ih => simp [hasSubstrL, ih]

theorem jsIncludes_of_scan {s : String} {m : FFMatch} (h : ffScan s.data = some m) :
    jsIncludes s "font-family" = true := by
  obtain ⟨hdec, -⟩ := ffScan_sound s.data m h
  unfold jsIncludes
  rw [hdec]
  rw [List.append_assoc, List.append_assoc, List.append_assoc]
  apply hasSubstrL_append_right
  rw [List.isPrefixOf_iff_prefix]
  exact List.IsPrefix.trans (by decide) (List.prefix_append ffKey _)

theorem getSubstitution_of_no_dollar (matched pre post cap : List Char) :
    ∀ tpl : List Char, '$' ∉ tpl →
      getSubstitution matched pre post cap tpl = tpl := by
  intro tpl
  induction tpl with
  | nil => intro _; rfl
  | cons c rest ih =>
    intro h
    have hc : ¬(c = '$') := by
      intro he
      subst he
      exact h (List.mem_cons_self _ _)
    have hrest : '$' ∉ rest := fun hm => h (List.mem_cons_of_mem c hm)
    rw [getSubstitution.eq_def]
    split <;> simp_all

theorem template_no_dollar (fonts : List String)
    (h : '$' ∉ (jsJoin ", " fonts).data) :
    '$' ∉ ("font-family: " ++ jsJoin ", " fonts ++ ", Arial, sans-serif" : String).data := by
  intro hm
  simp only [String.data_append] at hm
  rcases List.mem_append.mp hm with h1 | h1
  · rcases List.mem_append.mp h1 with h2 | h2
    · exact absurd h2 (by decide)
    · exact h h2
  · exact absurd h1 (by decide)

theorem outlookFontFix_eq (t : String) (a : Attrs) (s : String) (m : FFMatch)
    (hst : getAttr a "style" = some s) (hscan : ffScan s.data = some m)
    (hno : (parseFonts ⟨m.capture⟩).any (fun f => OUTLOOK_SAFE_FONTS.contains f) = false)
    (hdollar : '$' ∉ (jsJoin ", " (parseFonts ⟨m.capture⟩)).data) :
    outlookFontFix t a =
      setAttr "style"
        (⟨m.pre⟩ ++ "font-family: " ++ jsJoin ", " (parseFonts ⟨m.capture⟩) ++
          ", Arial, sans-serif" ++ ⟨m.post⟩) a := by
  have hcap : m.capture ≠ [] := (ffScan_sound s.data m hscan).2
  unfold outlookFontFix
  rw [hst]
  simp only [Option.getD_some]
  rw [jsIncludes_of_scan hscan]
  simp only [if_true]
  rw [hscan]
  have hcapb : m.capture.isEmpty = false := by simpa using hcap
  simp only [hcapb, Bool.false_eq_true, if_false, hno, Bool.not_false, if_true]
  rw [getSubstitution_of_no_dollar _ _ _ _ _
    (template_no_dollar (parseFonts ⟨m.capture⟩) hdollar)]
  refine congrArg (fun v => setAttr "style" v a) ?_
  apply String.ext
  simp [String.data_append, List.append_assoc]

/-! ### Per-element attribute preservation -/

theorem addClass_getAttr (cls : String) (a : Attrs) (n : String) (h : n ≠ "class") :
    getAttr (addClass cls a) n = getAttr a n := by
  unfold addClass
  split
  · exact getAttr_setAttr_ne "class" n cls a (fun he => h he.symm)
  · split
    · rfl
    · exact getAttr_setAttr_ne "class" n _ a (fun he => h he.symm)

theorem inlineStylesFix_getAttr (t : String) (a : Attrs) (n : String) (h : n ≠ "style") :
    getAttr (inlineStylesFix t a) n = getAttr a n := by
  have hs : ∀ (v : String) (a' : Attrs), getAttr (setAttr "style" v a') n = getAttr a' n :=
    fun v a' => getAttr_setAttr_ne "style" n v a' (fun he => h he.symm)
  simp only [inlineStylesFix]
  split
  · split <;> split <;> simp [hs]
  · rfl

theorem tableFix_fst_getAttr (t : String) (a : Attrs) (cs : List Node) (s : List Issue)
    (n : String) (h1 : n ≠ "cellpadding") (h2 : n ≠ "cellspacing") (h3 : n ≠ "border")
    (h4 : n ≠ "width") :
    getAttr (tableFix t a cs s).1 n = getAttr a n := by
  have g1 : ∀ (a' : Attrs), getAttr (setAttr "cellpadding" "0" a') n = getAttr a' n :=
    fun a' => getAttr_setAttr_ne _ n _ a' (fun he => h1 he.symm)
  have g2 : ∀ (a' : Attrs), getAttr (setAttr "cellspacing" "0" a') n = getAttr a' n :=
    fun a' => getAttr_setAttr_ne _ n _ a' (fun he => h2 he.symm)
  have g3 : ∀ (a' : Attrs), getAttr (setAttr "border" "0" a') n = getAttr a' n :=
    fun a' => getAttr_setAttr_ne _ n _ a' (fun he => h3 he.symm)
  have g4 : ∀ (v : String) (a' : Attrs), getAttr (setAttr "width" v a') n = getAttr a' n :=
    fun v a' => getAttr_setAttr_ne _ n v a' (fun he => h4 he.symm)
  simp only [tableFix]
  split
  · split <;> simp [g1, g2, g3, g4]
  · rfl

theorem tdFix_getAttr (t : String) (a : Attrs) (n : String) (h : n ≠ "valign") :
    getAttr (tdFix t a) n = getAttr a n := by
  unfold tdFix
  split
  · exact getAttr_setAttr_ne "valign" n _ a (fun he => h he.symm)
  · rfl

theorem darkClassFix_getAttr (t : String) (a : Attrs) (n : String) (h : n ≠ "class") :
    getAttr (darkClassFix t a) n = getAttr a n := by
  simp only [darkClassFix]
  split
  · split
    · exact addClass_getAttr _ a n h
    · rfl
  · rfl

theorem imgFix_fst_getAttr (t : String) (a : Attrs) (s : List Issue)
    (n : String) (h1 : n ≠ "alt") (h2 : n ≠ "style") :
    getAttr (imgFix t a s).1 n = getAttr a n := by
  have ga : ∀ (v : String) (a' : Attrs), getAttr (setAttr "alt" v a') n = getAttr a' n :=
    fun v a' => getAttr_setAttr_ne _ n v a' (fun he => h1 he.symm)
  have gs : ∀ (v : String) (a' : Attrs), getAttr (setAttr "style" v a') n = getAttr a' n :=
    fun v a' => getAttr_setAttr_ne _ n v a' (fun he => h2 he.symm)
  simp only [imgFix]
  split
  · split <;> split <;> split <;> simp [ga, gs]
  · rfl

theorem outlookFontFix_getAttr (t : String) (a : Attrs) (n : String) (h : n ≠ "style") :
    getAttr (outlookFontFix t a) n = getAttr a n := by
  have gs : ∀ (v : String) (a' : Attrs), getAttr (setAttr "style" v a') n = getAttr a' n :=
    fun v a' => getAttr_setAttr_ne _ n v a' (fun he => h he.symm)
  simp only [outlookFontFix]
  split
  · split
    · rfl
    · split
      · rfl
      · split
        · simp [gs]
        · rfl
  · rfl

theorem cleanupStyleAttr_fst_getAttr (t : String) (a : Attrs) (s : List Issue)
    (n : String) (h : n ≠ "style") :
    getAttr (cleanupStyleAttr t a s).1 n = getAttr a n := by
  have gs : ∀ (v : String) (a' : Attrs), getAttr (setAttr "style" v a') n = getAttr a' n :=
    fun v a' => getAttr_setAttr_ne _ n v a' (fun he => h he.symm)
  simp only [cleanupStyleAttr]
  split
  · rfl
  · split
    · rfl
    · split
      · simp [gs]
      · rfl

/-! ### Predicate congruence and per-stage preservation -/

theorem imgHasAlt_congr {t : String} {a a' : Attrs}
    (h : getAttr a' "alt" = getAttr a "alt") : imgHasAlt t a' = imgHasAlt t a := by
  unfold imgHasAlt
  rw [h]

theorem imgFalsyAlt_congr {t : String} {a a' : Attrs}
    (h : getAttr a' "alt" = getAttr a "alt") : imgFalsyAlt t a' = imgFalsyAlt t a := by
  unfold imgFalsyAlt attrFalsy
  rw [h]

theorem removableTag_congr {t : String} {a a' : Attrs}
    (hrel : getAttr a' "rel" = getAttr a "rel")
    (hname : getAttr a' "name" = getAttr a "name") :
    removableTag t a' = removableTag t a := by
  unfold removableTag
  rw [hrel, hname]

theorem tableWithBCSuffix_congr {t : String} {a a' : Attrs}
    (h : getAttr a' "style" = getAttr a "style") :
    tableWithBCSuffix t a' = tableWithBCSuffix t a := by
  unfold tableWithBCSuffix
  rw [h]

theorem tableFix_of_ne {t : String} (a : Attrs) (cs : List Node) (s : List Issue)
    (h : (t == "table") = false) : tableFix t a cs s = (a, s) := by
  unfold tableFix
  rw [h]
  simp

theorem imgFix_of_ne {t : String} (a : Attrs) (s : List Issue)
    (h : (t == "img") = false) : imgFix t a s = (a, s) := by
  unfold imgFix
  rw [h]
  simp

theorem imgHasAlt_imgFix (t : String) (a : Attrs) (s : List Issue) :
    imgHasAlt t (imgFix t a s).1 = true := by
  by_cases ht : (t == "img") = true
  · have hsome : (getAttr (imgFix t a s).1 "alt").isSome = true := by
      simp only [imgFix, ht, if_true]
      by_cases hf : attrFalsy a "alt" = true
      · simp only [hf, if_true]
        split
        · rw [getAttr_setAttr_ne "style" "alt" _ _ (by decide), getAttr_setAttr_self]
          rfl
        · rw [getAttr_setAttr_self]
          rfl
      · have hf' : attrFalsy a "alt" = false := by simpa using hf
        simp only [hf', Bool.false_eq_true, if_false]
        have hsome0 : (getAttr a "alt").isSome = true := by
          unfold attrFalsy at hf'
          cases hga : getAttr a "alt" with
          | none => rw [hga] at hf'; simp at hf'
          | some v => rfl
        split
        · rw [getAttr_setAttr_ne "style" "alt" _ _ (by decide)]
          exact hsome0
        · exact hsome0
    unfold imgHasAlt
    rw [hsome]
    simp
  · have ht' : (t == "img") = false := by simpa using ht
    rw [imgFix_of_ne a s ht']
    unfold imgHasAlt
    rw [ht']
    rfl

theorem tableWithBCSuffix_inlineStylesFix (t : String) (a : Attrs)
    (h : tableLacksBC t a = true) :
    tableWithBCSuffix t (inlineStylesFix t a) = true := by
  unfold tableLacksBC at h
  rw [Bool.and_eq_true] at h
  obtain ⟨ht, hni⟩ := h
  have ht' : t = "table" := by simpa using ht
  subst ht'
  simp only [inlineStylesFix]
  rw [if_pos (by decide)]
  simp only [ht, Bool.true_and]
  rw [if_pos hni]
  rw [if_neg (by simp)]
  unfold tableWithBCSuffix
  rw [getAttr_setAttr_self]
  simp only [ht, Bool.true_and]
  rw [List.isSuffixOf_iff_suffix]
  rw [String.data_append]
  exact List.suffix_append _ _

theorem tableWithBCSuffix_outlookFontFix (t : String) (a : Attrs)
    (h : tableWithBCSuffix t a = true) :
    tableWithBCSuffix t (outlookFontFix t a) = true := by
  unfold tableWithBCSuffix at h
  rw [Bool.and_eq_true] at h
  obtain ⟨ht, hsuf⟩ := h
  cases hstyle : getAttr a "style" with
  | none => rw [hstyle] at hsuf; exact absurd hsuf (by simp)
  | some s =>
    rw [hstyle] at hsuf
    rw [List.isSuffixOf_iff_suffix] at hsuf
    obtain ⟨x, hx⟩ := hsuf
    have base : tableWithBCSuffix t a = true := by
      unfold tableWithBCSuffix
      rw [hstyle, ht, Bool.true_and, List.isSuffixOf_iff_suffix]
      exact ⟨x, hx⟩
    unfold outlookFontFix
    rw [hstyle]
    simp only [Option.getD_some]
    by_cases hinc : jsIncludes s "font-family" = true
    · rw [if_pos hinc]
      cases hscan : ffScan s.data with
      | none => exact base
      | some m =>
        simp only []
        have hscan' : ffScan (x ++ bcSuffix.data) = some m := by
          rw [← hx] at hscan
          exact hscan
        obtain ⟨y, hy⟩ := ffScan_post_suffix x m hscan'
        by_cases hcap : m.capture.isEmpty = true
        · rw [if_pos hcap]
          exact base
        · rw [if_neg hcap]
          by_cases hsafe : (!(parseFonts ⟨m.capture⟩).any fun f => OUTLOOK_SAFE_FONTS.contains f) = true
          · rw [if_pos hsafe]
            unfold tableWithBCSuffix
            rw [getAttr_setAttr_self, ht, Bool.true_and, List.isSuffixOf_iff_suffix]
            simp only [String.data_append, hy]
            exact List.IsSuffix.trans (List.suffix_append y bcSuffix.data)
              (List.suffix_append _ _)
          · rw [if_neg hsafe]
            exact base
    · rw [if_neg hinc]
      exact base

/-! ### Stage projections -/

theorem inlineStyles_fst (d : List Node) (c : Ctx) :
    (inlineStyles d c).1 =
      if countElemsL (fun t _ => t == "style") d > 0 then
        mapElemsL inlineStylesFix (removeAllL (fun t _ => t == "style") d)
      else mapElemsL inlineStylesFix d := by
  simp only [inlineStyles]
  split <;> rfl

theorem inlineStyles_snd_issues (d : List Node) (c : Ctx) :
    (inlineStyles d c).2.issues =
      if countElemsL (fun t _ => t == "style") d > 0 then
        c.issues ++
          [warnIssue ("Found " ++ toString (countElemsL (fun t _ => t == "style") d) ++
              " <style> tags. Email clients have limited CSS support.")
            none "Use inline styles instead of CSS blocks for better compatibility."]
      else c.issues := by
  simp only [inlineStyles]
  split <;> rfl

theorem stage2_fst (d : List Node) (c : Ctx) :
    (optimizeTableStructure d c).1 =
      mapElemsL tdFix (mapAccumList (fun t a cs issues => tableFix t a cs issues) d c.issues).1 := rfl

theorem stage2_snd_issues (d : List Node) (c : Ctx) :
    (optimizeTableStructure d c).2.issues =
      (mapAccumList (fun t a cs issues => tableFix t a cs issues) d c.issues).2 := rfl

theorem stage3_fst (d : List Node) (c : Ctx) :
    (addDarkModeSupport d c).1 =
      mapElemsL darkClassFix (appendToTagL "head"
        [Node.elem "style" [("type", "text/css")] [Node.text darkModeCSS]] (ensureHead d)) := rfl

theorem stage3_snd_issues (d : List Node) (c : Ctx) :
    (addDarkModeSupport d c).2.issues = c.issues := rfl

theorem stage4_fst (d : List Node) (c : Ctx) :
    (optimizeImages d c).1 =
      (mapAccumList (fun t a _ issues => imgFix t a issues) d c.issues).1 := rfl

theorem stage4_snd_issues (d : List Node) (c : Ctx) :
    (optimizeImages d c).2.issues =
      (mapAccumList (fun t a _ issues => imgFix t a issues) d c.issues).2 := rfl

theorem stage5_fst (d : List Node) (c : Ctx) :
    (addOutlookCompatibility d c).1 =
      mapElemsL outlookFontFix (appendToTagL "head" outlookCondNodes (ensureHead d)) := rfl

theorem stage5_snd_issues (d : List Node) (c : Ctx) :
    (addOutlookCompatibility d c).2.issues = c.issues := rfl

theorem cleanup_snd_issues (d : List Node) (c : Ctx) :
    (cleanupUnsupportedElements d c).2.issues =
      (mapAccumList (fun t a _ issues => cleanupStyleAttr t a issues)
        (removePass removalSelectors d c).1 (removePass removalSelectors d c).2.issues).2 := rfl

theorem meta_snd_issues (d : List Node) (c : Ctx) :
    (addEmailMetaTags d c).2.issues = c.issues := rfl

/-! ### Generic helpers for the universal image and table claims -/

theorem countWarnMsg_nil (M : String) : countWarnMsg M [] = 0 := rfl

theorem allElemsL_imp (P Q : String → Attrs → Bool)
    (h : ∀ t a, P t a = true → Q t a = true) (l : List Node)
    (hl : allElemsL P l = true) : allElemsL Q l = true := by
  refine Node.indL (fun n => allElemsN P n = true → allElemsN Q n = true)
      (fun l => allElemsL P l = true → allElemsL Q l = true) ?_ ?_ ?_ ?_ ?_ l hl
  · intro t a cs ih hn
    simp only [allElemsN, Bool.and_eq_true] at hn
    simp only [allElemsN]
    rw [h t a hn.1, ih hn.2]
    rfl
  · intro _ _; rfl
  · intro _ _; rfl
  · intro _; rfl
  · intro n ns ihn ihl hc
    simp only [allElemsL, Bool.and_eq_true] at hc
    simp only [allElemsL]
    rw [ihn hc.1, ihl hc.2]
    rfl

theorem countElemsL_false (l : List Node) :
    countElemsL (fun _ _ => false) l = 0 := by
  refine Node.indL (fun n => countElemsN (fun _ _ => false) n = 0)
      (fun l => countElemsL (fun _ _ => false) l = 0) ?_ ?_ ?_ ?_ ?_ l
  · intro t a cs ih
    simp [countElemsN, ih]
  · intro _; rfl
  · intro _; rfl
  · rfl
  · intro n ns ihn ihl
    simp [countElemsL, ihn, ihl]

theorem allElemsL_removePass (P : String → Attrs → Bool) :
    ∀ (sels : List (String × (String → Attrs → Bool))) (d : List Node) (c : Ctx),
      allElemsL P d = true → allElemsL P (removePass sels d c).1 = true := by
  intro sels
  induction sels with
  | nil => intro d c h; exact h
  | cons sp rest ih =>
    intro d c h
    obtain ⟨sel, p⟩ := sp
    simp only [removePass]
    split
    · exact ih _ _ (allElemsL_removeAllL P p d h)
    · exact ih _ _ h

theorem countWarnMsg_removePass (M : String)
    (hne : ∀ x y : String, "Removed " ++ x ++ " unsupported elements: " ++ y ≠ M) :
    ∀ (sels : List (String × (String → Attrs → Bool))) (d : List Node) (c : Ctx),
      countWarnMsg M (removePass sels d c).2.issues = countWarnMsg M c.issues := by
  intro sels
  induction sels with
  | nil => intro d c; rfl
  | cons sp rest ih =>
    intro d c
    obtain ⟨sel, p⟩ := sp
    simp only [removePass]
    split
    · rw [ih]
      have h0 : countWarnMsg M
          [warnIssue ("Removed " ++ toString (countElemsL p d) ++ " unsupported elements: " ++ sel)
            none "These elements are not supported in email clients and have been removed."] = 0 :=
        countWarnMsg_single_ne (hne _ _)
      simp [countWarnMsg_append, h0]
    · exact ih _ _

theorem countElemsL_removePass (q : String → Attrs → Bool)
    (hq : ∀ t a, q t a = true → removableTag t a = false) :
    ∀ (sels : List (String × (String → Attrs → Bool))),
      (∀ sp ∈ sels, ∀ t a, sp.2 t a = true → removableTag t a = true) →
      ∀ (d : List Node) (c : Ctx), noneUnderL removableTag q d = true →
        countElemsL q (removePass sels d c).1 = countElemsL q d := by
  intro sels
  induction sels with
  | nil => intro _ d c _; rfl
  | cons sp rest ih =>
    intro hsub d c h
    obtain ⟨sel, p⟩ := sp
    have hp : ∀ t a, p t a = true → removableTag t a = true :=
      fun t a hpa => hsub (sel, p) (List.mem_cons_self _ _) t a hpa
    have hrest : ∀ sp ∈ rest, ∀ t a, sp.2 t a = true → removableTag t a = true :=
      fun sp hsp => hsub sp (List.mem_cons_of_mem _ hsp)
    have hpq : ∀ t a, q t a = true → p t a = false := by
      intro t a hqa
      by_cases hpa : p t a = true
      · exact absurd (hp t a hpa) (by rw [hq t a hqa]; simp)
      · simpa using hpa
    simp only [removePass]
    split
    · have h1 : noneUnderL p q d = true :=
        noneUnderL_mono removableTag p q q hp (fun _ _ hx => hx) d h
      have h2 : noneUnderL removableTag q (removeAllL p d) = true :=
        noneUnderL_removeAllL removableTag q p d h
      rw [ih hrest _ _ h2, countElemsL_removeAllL p q hpq d h1]
    · exact ih hrest _ _ h

theorem styleNoBCDecl_of_styleSafe (s : String) (h : styleSafe s = true) :
    styleNoBCDecl s = true := by
  unfold styleSafe at h
  unfold styleNoBCDecl
  rw [List.all_eq_true] at h ⊢
  intro d hd
  have hp := h d hd
  simp only [propAllowed] at hp
  rw [Bool.and_eq_true] at hp
  by_cases hbc : (jsTrim ((jsSplit ':' d).headD "") == "border-collapse") = true
  · have he : jsTrim ((jsSplit ':' d).headD "") = "border-collapse" := by simpa using hbc
    rw [he] at hp
    exact absurd hp.2 (by decide)
  · have hbc' : (jsTrim ((jsSplit ':' d).headD "") == "border-collapse") = false := by
      simpa using hbc
    rw [hbc']
    rfl

theorem elemNoBCDecl_of_styleSafe (a : Attrs) (h : elemStyleSafe a = true) :
    elemNoBCDecl a = true := by
  unfold elemStyleSafe at h
  unfold elemNoBCDecl
  cases hga : getAttr a "style" with
  | none => rfl
  | some s =>
    rw [hga] at h
    exact styleNoBCDecl_of_styleSafe s h

theorem score_le_of_warnCount (M : String) (issues : List Issue) (N : Nat)
    (h : N ≤ countWarnMsg M issues) :
    calculateCompatibilityScore issues ≤ max 0 (100 - 5 * (N : Int)) := by
  have hW : countWarnMsg M issues ≤
      (issues.filter (fun i => i.type == IssueType.warning)).length := by
    unfold countWarnMsg
    refine length_filter_le_of_imp _ _ _ ?_
    intro i hi
    rw [Bool.and_eq_true] at hi
    exact hi.1
  simp only [calculateCompatibilityScore]
  omega

theorem countWarnMsg_validate_ge (M : String) (d : List Node) (i : List Issue) :
    countWarnMsg M i ≤ countWarnMsg M (validateEmailStructure d i) := by
  simp only [validateEmailStructure]
  split <;> split <;> split <;> split <;>
    simp [countWarnMsg_append]

theorem countWarnMsg_validate (M : String)
    (h1 : "Missing HTML document structure" ≠ M)
    (h2 : "Missing HEAD section" ≠ M)
    (h3 : "Missing BODY section" ≠ M)
    (h4 : ∀ x : String, x ++ " images missing alt attributes" ≠ M)
    (d : List Node) (i : List Issue) :
    countWarnMsg M (validateEmailStructure d i) = countWarnMsg M i := by
  have e1 : countWarnMsg M [errorIssue "Missing HTML document structure"
      "Email should have proper HTML document structure with html, head, and body tags."] = 0 :=
    countWarnMsg_single_ne h1
  have e2 : countWarnMsg M [errorIssue "Missing HEAD section"
      "Email should have a HEAD section for meta tags and styles."] = 0 :=
    countWarnMsg_single_ne h2
  have e3 : countWarnMsg M [errorIssue "Missing BODY section"
      "Email content should be wrapped in a BODY tag."] = 0 :=
    countWarnMsg_single_ne h3
  have e4 : countWarnMsg M
      [warnIssue (toString (countElemsL (fun t a => t == "img" && getAttr a "alt" == none) d) ++
          " images missing alt attributes")
        none "Add alt attributes to all images for accessibility and when images are blocked."] = 0 :=
    countWarnMsg_single_ne (h4 _)
  simp only [validateEmailStructure]
  split <;> split <;> split <;> split <;>
    simp only [countWarnMsg_append, e1, e2, e3, e4, Nat.add_zero]

theorem countWarnMsg_validate_img (d : List Node) (i : List Issue) :
    countWarnMsg "Image missing alt text" (validateEmailStructure d i) =
      countWarnMsg "Image missing alt text" i :=
  countWarnMsg_validate "Image missing alt text" (by decide) (by decide) (by decide)
    (fun x => str_append_ne_of_length x _ _ (by decide)) d i

/-! ### Per-element issue accounting -/

theorem countWarnMsg_tableFix (M : String)
    (hne : ∀ x : String, "Table has " ++ x ++
      " nested tables. This may cause layout issues in some email clients." ≠ M)
    (t : String) (a : Attrs) (cs : List Node) (s : List Issue) :
    countWarnMsg M (tableFix t a cs s).2 = countWarnMsg M s := by
  have h0 : countWarnMsg M
      [warnIssue ("Table has " ++ toString (countElemsL (fun tg _ => tg == "table") cs) ++
          " nested tables. This may cause layout issues in some email clients.")
        (some "table") "Consider simplifying the table structure to reduce nesting."] = 0 :=
    countWarnMsg_single_ne (hne _)
  simp only [tableFix]
  repeat' split
  all_goals simp [countWarnMsg_append, h0]

theorem countWarnMsg_imgFix (t : String) (a : Attrs) (s : List Issue) :
    countWarnMsg "Image missing alt text" (imgFix t a s).2 =
      countWarnMsg "Image missing alt text" s + (if imgFalsyAlt t a then 1 else 0) := by
  have hw : countWarnMsg "Image missing alt text"
      [warnIssue "Image missing width attribute" (some "img")
        "Add width attribute for consistent rendering across email clients."] = 0 :=
    countWarnMsg_single_ne (by decide)
  by_cases ht : (t == "img") = true
  · have hfa : imgFalsyAlt t a = attrFalsy a "alt" := by
      unfold imgFalsyAlt
      rw [ht, Bool.true_and]
    have h2 : countWarnMsg "Image missing alt text"
        [warnIssue "Image missing alt text" (some "img")
          "Add descriptive alt text for accessibility and when images are blocked.",
         warnIssue "Image missing width attribute" (some "img")
          "Add width attribute for consistent rendering across email clients."] = 1 := by decide
    rw [hfa]
    simp only [imgFix, ht, if_true]
    repeat' split
    all_goals simp_all [countWarnMsg_append, countWarnMsg_warn_single, hw, h2]
  · have ht' : (t == "img") = false := by simpa using ht
    have hfa : imgFalsyAlt t a = false := by
      unfold imgFalsyAlt
      rw [ht']
      rfl
    rw [imgFix_of_ne a s ht', hfa]
    simp

theorem countWarnMsg_cleanupStyleAttr_le (M : String) (t : String) (a : Attrs) (s : List Issue) :
    countWarnMsg M s ≤ countWarnMsg M (cleanupStyleAttr t a s).2 := by
  simp only [cleanupStyleAttr]
  repeat' split
  all_goals simp [countWarnMsg_append]

theorem countWarnMsg_cleanupStyleAttr_ne (M : String)
    (hne : "Removed unsupported CSS properties" ≠ M) (t : String) (a : Attrs) (s : List Issue) :
    countWarnMsg M (cleanupStyleAttr t a s).2 = countWarnMsg M s := by
  have h0 : ∀ el : Option String, countWarnMsg M
      [warnIssue "Removed unsupported CSS properties" el
        "Use only email-safe CSS properties for consistent rendering."] = 0 :=
    fun el => countWarnMsg_single_ne hne
  simp only [cleanupStyleAttr]
  repeat' split
  all_goals simp [countWarnMsg_append, h0]

theorem styleProperties_bc_mem (s0 : String) (x : List Char)
    (hx : s0.data = x ++ bcSuffix.data) :
    "border-collapse: collapse" ∈ styleProperties s0 := by
  rw [styleProperties_eq]
  have hbc : bcSuffix.data = ';' :: (" border-collapse: collapse".data ++ [';']) := by decide
  rw [hbc] at hx
  have hsplit : splitOnCharL ';' s0.data =
      splitOnCharL ';' x ++ splitOnCharL ';' (" border-collapse: collapse".data ++ [';']) := by
    rw [hx]
    exact splitOnCharL_append_sep ';' x _
  have h2 : splitOnCharL ';' (" border-collapse: collapse".data ++ [';']) =
      [" border-collapse: collapse".data, []] := by decide
  have hmem : " border-collapse: collapse".data ∈ splitOnCharL ';' s0.data := by
    rw [hsplit, h2]
    exact List.mem_append_right _ (List.mem_cons_self _ _)
  have htrim : trimL " border-collapse: collapse".data = "border-collapse: collapse".data := by
    decide
  refine List.mem_map.mpr ⟨"border-collapse: collapse".data, ?_, rfl⟩
  refine List.mem_filter.mpr ⟨?_, by decide⟩
  exact List.mem_map.mpr ⟨" border-collapse: collapse".data, hmem, htrim⟩

theorem countWarnMsg_cleanupStyleAttr_bc (t : String) (a : Attrs) (s : List Issue) :
    countWarnMsg "Removed unsupported CSS properties" s +
        (if tableWithBCSuffix t a then 1 else 0) ≤
      countWarnMsg "Removed unsupported CSS properties" (cleanupStyleAttr t a s).2 := by
  by_cases hq : tableWithBCSuffix t a = true
  · rw [if_pos hq]
    unfold tableWithBCSuffix at hq
    rw [Bool.and_eq_true] at hq
    obtain ⟨ht, hsuf⟩ := hq
    cases hga : getAttr a "style" with
    | none =>
      rw [hga] at hsuf
      exact absurd hsuf (by simp)
    | some s0 =>
      rw [hga] at hsuf
      rw [List.isSuffixOf_iff_suffix] at hsuf
      obtain ⟨x, hx⟩ := hsuf
      have hmem := styleProperties_bc_mem s0 x hx.symm
      have hnempty : s0 ≠ "" := by
        intro he
        have h0 : x ++ bcSuffix.data = ([] : List Char) := by
          rw [hx, he]
        rcases List.append_eq_nil.mp h0 with ⟨_, hb⟩
        exact absurd hb (by decide)
      have hbeq : (s0 == "") = false := by
        rw [beq_eq_false_iff_ne]
        exact hnempty
      have hlt : ((styleProperties s0).filter propAllowed).length <
          (styleProperties s0).length := by
        rw [List.length_filter_lt_length_iff_exists]
        exact ⟨"border-collapse: collapse", hmem, by decide⟩
      have hbne : (((styleProperties s0).filter propAllowed).length !=
          (styleProperties s0).length) = true := by
        have hne := Nat.ne_of_lt hlt
        simpa using hne
      simp only [cleanupStyleAttr, hga]
      rw [if_neg (by rw [hbeq]; exact Bool.false_ne_true)]
      rw [if_pos hbne]
      simp [countWarnMsg_append, countWarnMsg_warn_single]
  · have hq' : tableWithBCSuffix t a = false := by simpa using hq
    rw [hq']
    simp only [Bool.false_eq_true, if_false, Nat.add_zero]
    exact countWarnMsg_cleanupStyleAttr_le _ t a s

/-! ### Whole-pipeline invariants for images and tables -/

theorem output_imgHasAlt (doc : List Node) :
    allElemsL imgHasAlt (optimizeForEmailClients doc).doc = true := by
  rw [optimize_doc, pipelineStages_fst]
  refine allElemsL_appendToTagL _ "head" emailMetaTags (by decide) _ ?_
  refine allElemsL_ensureHead _ (by decide) _ ?_
  unfold stage6
  rw [cleanup_fst]
  refine allElemsL_mapAccumList_preserve _ _ ?_ _ _ ?_
  · intro t a cs s hh
    rw [imgHasAlt_congr (cleanupStyleAttr_fst_getAttr t a s "alt" (by decide))]
    exact hh
  · refine allElemsL_removePass _ removalSelectors _ _ ?_
    unfold stage5
    rw [stage5_fst]
    refine allElemsL_mapElemsL_preserve _ _ ?_ _ ?_
    · intro t a hh
      rw [imgHasAlt_congr (outlookFontFix_getAttr t a "alt" (by decide))]
      exact hh
    · refine allElemsL_appendToTagL _ "head" outlookCondNodes (by decide) _ ?_
      refine allElemsL_ensureHead _ (by decide) _ ?_
      unfold stage4
      rw [stage4_fst]
      exact allElemsL_mapAccumList _ _ (fun t a _ s => imgHasAlt_imgFix t a s) _ _

theorem stage5_noneUnder (doc : List Node)
    (h : noneUnderL removableTag isTableTag doc = true) :
    noneUnderL removableTag isTableTag
      (stage5 (stage4 (stage3 (stage2 (stage1 (doc, ⟨[], []⟩)))))).1 = true := by
  have hinf : ∀ (t : String) (a : Attrs),
      removableTag t (inlineStylesFix t a) = removableTag t a :=
    fun t a => removableTag_congr (inlineStylesFix_getAttr t a "rel" (by decide))
      (inlineStylesFix_getAttr t a "name" (by decide))
  have htf : ∀ (t : String) (a : Attrs) (cs : List Node) (s : List Issue),
      removableTag t ((fun t a cs issues => tableFix t a cs issues) t a cs s).1 =
        removableTag t a :=
    fun t a cs s => removableTag_congr
      (tableFix_fst_getAttr t a cs s "rel" (by decide) (by decide) (by decide) (by decide))
      (tableFix_fst_getAttr t a cs s "name" (by decide) (by decide) (by decide) (by decide))
  have htd : ∀ (t : String) (a : Attrs), removableTag t (tdFix t a) = removableTag t a :=
    fun t a => removableTag_congr (tdFix_getAttr t a "rel" (by decide))
      (tdFix_getAttr t a "name" (by decide))
  have hdark : ∀ (t : String) (a : Attrs),
      removableTag t (darkClassFix t a) = removableTag t a :=
    fun t a => removableTag_congr (darkClassFix_getAttr t a "rel" (by decide))
      (darkClassFix_getAttr t a "name" (by decide))
  have himg : ∀ (t : String) (a : Attrs) (cs : List Node) (s : List Issue),
      removableTag t ((fun t a _ issues => imgFix t a issues) t a cs s).1 = removableTag t a :=
    fun t a cs s => removableTag_congr
      (imgFix_fst_getAttr t a s "rel" (by decide) (by decide))
      (imgFix_fst_getAttr t a s "name" (by decide) (by decide))
  have hout : ∀ (t : String) (a : Attrs),
      removableTag t (outlookFontFix t a) = removableTag t a :=
    fun t a => removableTag_congr (outlookFontFix_getAttr t a "rel" (by decide))
      (outlookFontFix_getAttr t a "name" (by decide))
  unfold stage5
  rw [stage5_fst]
  refine noneUnderL_mapElemsL removableTag isTableTag _ hout (fun t a => rfl) _ ?_
  refine noneUnderL_appendToTagL _ _ "head" outlookCondNodes (by decide) (by decide) _ ?_
  refine noneUnderL_ensureHead _ _ (by decide) (by decide) _ ?_
  unfold stage4
  rw [stage4_fst]
  refine noneUnderL_mapAccumList removableTag isTableTag _ himg (fun t a cs s => rfl) _ _ ?_
  unfold stage3
  rw [stage3_fst]
  refine noneUnderL_mapElemsL removableTag isTableTag _ hdark (fun t a => rfl) _ ?_
  refine noneUnderL_appendToTagL _ _ "head"
    [Node.elem "style" [("type", "text/css")] [Node.text darkModeCSS]]
    (by decide) (by decide) _ ?_
  refine noneUnderL_ensureHead _ _ (by decide) (by decide) _ ?_
  unfold stage2
  rw [stage2_fst]
  refine noneUnderL_mapElemsL removableTag isTableTag _ htd (fun t a => rfl) _ ?_
  refine noneUnderL_mapAccumList removableTag isTableTag _ htf (fun t a cs s => rfl) _ _ ?_
  unfold stage1
  rw [inlineStyles_fst]
  split
  · refine noneUnderL_mapElemsL removableTag isTableTag _ hinf (fun t a => rfl) _ ?_
    exact noneUnderL_removeAllL _ _ _ _ h
  · refine noneUnderL_mapElemsL removableTag isTableTag _ hinf (fun t a => rfl) _ ?_
    exact h

theorem stage5_bc_count (doc : List Node)
    (h : noneUnderL removableTag isTableTag doc = true) :
    countElemsL tableLacksBC doc ≤
      countElemsL tableWithBCSuffix
        (stage5 (stage4 (stage3 (stage2 (stage1 (doc, ⟨[], []⟩)))))).1 := by
  have htf : ∀ (t : String) (a : Attrs) (cs : List Node) (s : List Issue),
      tableWithBCSuffix t ((fun t a cs issues => tableFix t a cs issues) t a cs s).1 =
        tableWithBCSuffix t a :=
    fun t a cs s => tableWithBCSuffix_congr
      (tableFix_fst_getAttr t a cs s "style" (by decide) (by decide) (by decide) (by decide))
  have htd : ∀ (t : String) (a : Attrs),
      tableWithBCSuffix t (tdFix t a) = tableWithBCSuffix t a :=
    fun t a => tableWithBCSuffix_congr (tdFix_getAttr t a "style" (by decide))
  have hdark : ∀ (t : String) (a : Attrs),
      tableWithBCSuffix t (darkClassFix t a) = tableWithBCSuffix t a :=
    fun t a => tableWithBCSuffix_congr (darkClassFix_getAttr t a "style" (by decide))
  have himg : ∀ (t : String) (a : Attrs) (cs : List Node) (s : List Issue),
      tableWithBCSuffix t a = true →
        tableWithBCSuffix t ((fun t a _ issues => imgFix t a issues) t a cs s).1 = true := by
    intro t a cs s hQ
    have ht : (t == "img") = false := by
      unfold tableWithBCSuffix at hQ
      rw [Bool.and_eq_true] at hQ
      have ht2 : t = "table" := by simpa using hQ.1
      subst ht2
      rfl
    simp only []
    rw [imgFix_of_ne a s ht]
    exact hQ
  have hp1 : ((doc, (⟨[], []⟩ : Ctx)).1 : List Node) = doc := rfl
  unfold stage5
  rw [stage5_fst]
  refine le_trans ?_ (countElemsL_mapElemsL_ge tableWithBCSuffix tableWithBCSuffix outlookFontFix
    (fun t a => tableWithBCSuffix_outlookFontFix t a) _)
  rw [countElemsL_appendToTagL tableWithBCSuffix "head" outlookCondNodes (by decide),
      countElemsL_ensureHead tableWithBCSuffix (by decide)]
  unfold stage4
  rw [stage4_fst]
  refine le_trans ?_ (countElemsL_mapAccumList_ge tableWithBCSuffix _ himg _ _)
  unfold stage3
  rw [stage3_fst,
      countElemsL_mapElemsL tableWithBCSuffix darkClassFix hdark,
      countElemsL_appendToTagL tableWithBCSuffix "head"
        [Node.elem "style" [("type", "text/css")] [Node.text darkModeCSS]] (by decide),
      countElemsL_ensureHead tableWithBCSuffix (by decide)]
  unfold stage2
  rw [stage2_fst,
      countElemsL_mapElemsL tableWithBCSuffix tdFix htd,
      countElemsL_mapAccumList tableWithBCSuffix _ htf]
  unfold stage1
  try rw [hp1]
  rw [inlineStyles_fst]
  have hmain : countElemsL tableLacksBC doc ≤
      countElemsL tableWithBCSuffix (mapElemsL inlineStylesFix doc) :=
    countElemsL_mapElemsL_ge tableLacksBC tableWithBCSuffix inlineStylesFix
      (fun t a => tableWithBCSuffix_inlineStylesFix t a) doc
  split
  · refine le_trans ?_ (countElemsL_mapElemsL_ge tableLacksBC tableWithBCSuffix inlineStylesFix
      (fun t a => tableWithBCSuffix_inlineStylesFix t a) _)
    have hpq : ∀ (t : String) (a : Attrs), tableLacksBC t a = true →
        (fun (t : String) (_ : Attrs) => t == "style") t a = false := by
      intro t a hx
      unfold tableLacksBC at hx
      rw [Bool.and_eq_true] at hx
      have ht2 : t = "table" := by simpa using hx.1
      subst ht2
      rfl
    have hnu : noneUnderL (fun (t : String) (_ : Attrs) => t == "style") tableLacksBC doc =
        true := by
      refine noneUnderL_mono removableTag _ isTableTag tableLacksBC ?_ ?_ doc h
      · intro t a hx
        unfold removableTag
        rw [show (t == "style") = true from hx]
        rfl
      · intro t a hx
        unfold tableLacksBC at hx
        rw [Bool.and_eq_true] at hx
        exact hx.1
    rw [countElemsL_removeAllL _ tableLacksBC hpq doc hnu]
  · exact hmain

theorem tableBC_warning_count (doc : List Node)
    (h : noneUnderL removableTag isTableTag doc = true) :
    countElemsL tableLacksBC doc ≤
      countWarnMsg "Removed unsupported CSS properties" (optimizeForEmailClients doc).issues := by
  rw [optimize_issues]
  refine le_trans ?_ (countWarnMsg_validate_ge _ _ _)
  unfold pipelineStages stage7 stage6
  rw [meta_snd_issues, cleanup_snd_issues]
  refine le_trans ?_ (countWarnMsg_mapAccumList_ge "Removed unsupported CSS properties"
    tableWithBCSuffix _ (fun t a cs s => countWarnMsg_cleanupStyleAttr_bc t a s) _ _)
  refine le_trans ?_ (Nat.le_add_left _ _)
  have hq0 : ∀ (t : String) (a : Attrs), tableWithBCSuffix t a = true →
      removableTag t a = false := by
    intro t a hx
    unfold tableWithBCSuffix at hx
    rw [Bool.and_eq_true] at hx
    have ht2 : t = "table" := by simpa using hx.1
    subst ht2
    rfl
  have hsub : ∀ sp ∈ removalSelectors, ∀ (t : String) (a : Attrs),
      sp.2 t a = true → removableTag t a = true := by
    intro sp hsp t a hx
    simp only [removalSelectors, List.mem_cons, List.not_mem_nil, or_false] at hsp
    rcases hsp with h1 | h1 | h1 <;> subst h1 <;> simp_all [removableTag]
  have hnu5 : noneUnderL removableTag tableWithBCSuffix
      (stage5 (stage4 (stage3 (stage2 (stage1 (doc, ⟨[], []⟩)))))).1 = true := by
    refine noneUnderL_mono removableTag removableTag isTableTag tableWithBCSuffix
      (fun _ _ hx => hx) ?_ _ (stage5_noneUnder doc h)
    intro t a hx
    unfold tableWithBCSuffix at hx
    rw [Bool.and_eq_true] at hx
    exact hx.1
  rw [countElemsL_removePass tableWithBCSuffix hq0 removalSelectors hsub _ _ hnu5]
  exact stage5_bc_count doc h

theorem imgAlt_warning_count (doc : List Node)
    (h : noneUnderL isStyleTag isImgTag doc = true) :
    countWarnMsg "Image missing alt text" (optimizeForEmailClients doc).issues =
      countElemsL imgFalsyAlt doc := by
  have hinf : ∀ (t : String) (a : Attrs),
      imgFalsyAlt t (inlineStylesFix t a) = imgFalsyAlt t a :=
    fun t a => imgFalsyAlt_congr (inlineStylesFix_getAttr t a "alt" (by decide))
  have htf : ∀ (t : String) (a : Attrs) (cs : List Node) (s : List Issue),
      imgFalsyAlt t ((fun t a cs issues => tableFix t a cs issues) t a cs s).1 =
        imgFalsyAlt t a :=
    fun t a cs s => imgFalsyAlt_congr
      (tableFix_fst_getAttr t a cs s "alt" (by decide) (by decide) (by decide) (by decide))
  have htd : ∀ (t : String) (a : Attrs), imgFalsyAlt t (tdFix t a) = imgFalsyAlt t a :=
    fun t a => imgFalsyAlt_congr (tdFix_getAttr t a "alt" (by decide))
  have hdark : ∀ (t : String) (a : Attrs),
      imgFalsyAlt t (darkClassFix t a) = imgFalsyAlt t a :=
    fun t a => imgFalsyAlt_congr (darkClassFix_getAttr t a "alt" (by decide))
  have htbl : ∀ (t : String) (a : Attrs) (cs : List Node) (s : List Issue),
      countWarnMsg "Image missing alt text"
          ((fun t a cs issues => tableFix t a cs issues) t a cs s).2 =
        countWarnMsg "Image missing alt text" s +
          (if (fun (_ : String) (_ : Attrs) => false) t a then 1 else 0) := by
    intro t a cs s
    simp only []
    rw [countWarnMsg_tableFix "Image missing alt text"
      (fun x => str_append_ne_of_head _ _ _ 'T' 'I' rfl rfl (by decide)) t a cs s]
    simp
  have himg : ∀ (t : String) (a : Attrs) (cs : List Node) (s : List Issue),
      countWarnMsg "Image missing alt text"
          ((fun t a _ issues => imgFix t a issues) t a cs s).2 =
        countWarnMsg "Image missing alt text" s + (if imgFalsyAlt t a then 1 else 0) :=
    fun t a cs s => countWarnMsg_imgFix t a s
  have hclean : ∀ (t : String) (a : Attrs) (cs : List Node) (s : List Issue),
      countWarnMsg "Image missing alt text"
          ((fun t a _ issues => cleanupStyleAttr t a issues) t a cs s).2 =
        countWarnMsg "Image missing alt text" s +
          (if (fun (_ : String) (_ : Attrs) => false) t a then 1 else 0) := by
    intro t a cs s
    simp only []
    rw [countWarnMsg_cleanupStyleAttr_ne "Image missing alt text" (by decide) t a s]
    simp
  have hrm : ∀ x y : String,
      "Removed " ++ x ++ " unsupported elements: " ++ y ≠ "Image missing alt text" :=
    fun x y => str_append_ne_of_head _ _ _ 'R' 'I' rfl rfl (by decide)
  have hp1 : ((doc, (⟨[], []⟩ : Ctx)).1 : List Node) = doc := rfl
  have hp2 : ((doc, (⟨[], []⟩ : Ctx)).2 : Ctx) = (⟨[], []⟩ : Ctx) := rfl
  have hp3 : ((⟨[], []⟩ : Ctx) : Ctx).issues = ([] : List Issue) := rfl
  rw [optimize_issues, countWarnMsg_validate_img]
  unfold pipelineStages stage7 stage6 stage5 stage4 stage3 stage2 stage1
  try rw [hp1]
  try rw [hp2]
  rw [meta_snd_issues, cleanup_snd_issues]
  rw [countWarnMsg_mapAccumList "Image missing alt text" _ _ hclean, countElemsL_false]
  rw [countWarnMsg_removePass "Image missing alt text" hrm]
  rw [stage5_snd_issues, stage4_snd_issues]
  rw [countWarnMsg_mapAccumList "Image missing alt text" _ _ himg]
  rw [stage3_snd_issues, stage3_fst]
  rw [countElemsL_mapElemsL imgFalsyAlt darkClassFix hdark]
  rw [countElemsL_appendToTagL imgFalsyAlt "head"
    [Node.elem "style" [("type", "text/css")] [Node.text darkModeCSS]] (by decide)]
  rw [countElemsL_ensureHead imgFalsyAlt (by decide)]
  rw [stage2_snd_issues, stage2_fst]
  rw [countWarnMsg_mapAccumList "Image missing alt text" _ _ htbl, countElemsL_false]
  rw [countElemsL_mapElemsL imgFalsyAlt tdFix htd]
  rw [countElemsL_mapAccumList imgFalsyAlt _ htf]
  rw [inlineStyles_snd_issues, inlineStyles_fst]
  try rw [hp3]
  by_cases hsc : countElemsL (fun t _ => t == "style") doc > 0
  · rw [if_pos hsc, if_pos hsc]
    have hfound : countWarnMsg "Image missing alt text"
        (([] : List Issue) ++
          [warnIssue ("Found " ++ toString (countElemsL (fun t _ => t == "style") doc) ++
              " <style> tags. Email clients have limited CSS support.")
            none "Use inline styles instead of CSS blocks for better compatibility."]) = 0 := by
      rw [List.nil_append]
      exact countWarnMsg_single_ne (str_append_ne_of_head _ _ _ 'F' 'I' rfl rfl (by decide))
    rw [hfound]
    have hpq : ∀ (t : String) (a : Attrs), imgFalsyAlt t a = true →
        (fun (t : String) (_ : Attrs) => t == "style") t a = false := by
      intro t a hx
      unfold imgFalsyAlt at hx
      rw [Bool.and_eq_true] at hx
      have ht2 : t = "img" := by simpa using hx.1
      subst ht2
      rfl
    have hnu : noneUnderL (fun (t : String) (_ : Attrs) => t == "style") imgFalsyAlt doc =
        true := by
      refine noneUnderL_mono isStyleTag _ isImgTag imgFalsyAlt (fun _ _ hx => hx) ?_ doc h
      intro t a hx
      unfold imgFalsyAlt at hx
      rw [Bool.and_eq_true] at hx
      exact hx.1
    rw [countElemsL_mapElemsL imgFalsyAlt inlineStylesFix hinf,
        countElemsL_removeAllL _ imgFalsyAlt hpq doc hnu]
    omega
  · rw [if_neg hsc, if_neg hsc, countElemsL_mapElemsL imgFalsyAlt inlineStylesFix hinf,
        countWarnMsg_nil]
    omega

/-! ### Claim C1: the compatibility score formula -/

/-- C1: for every issues collection, the compatibility score equals
`max(0, 100 - 20*errorCount - 5*warningCount)`; it is 100 on the empty
collection and 0 whenever there are at least 5 errors.  (The score is an
integer by construction: the deductions are integral, so the source's final
`Math.round` is the identity.) -/
theorem claim_C1 (issues : List Issue) :
    calculateCompatibilityScore issues =
      max 0 (100 - (20 * ((issues.filter (fun i => i.type == IssueType.error)).length : Int)
                    + 5 * ((issues.filter (fun i => i.type == IssueType.warning)).length : Int))) ∧
    (issues = [] → calculateCompatibilityScore issues = 100) ∧
    (5 ≤ (issues.filter (fun i => i.type == IssueType.error)).length →
      calculateCompatibilityScore issues = 0) := by
  refine ⟨?_, ?_, ?_⟩
  · simp only [calculateCompatibilityScore]
    ring_nf
  · intro h; subst h; rfl
  · intro h
    simp only [calculateCompatibilityScore]
    omega

/-- Witness for C1 at concrete inputs: the empty collection scores 100 and a
collection of five errors scores 0. -/
theorem claim_C1_witness :
    calculateCompatibilityScore [] = 100 ∧
    calculateCompatibilityScore (List.replicate 5 (errorIssue "m" "r")) = 0 :=
  ⟨(claim_C1 []).2.1 rfl,
   (claim_C1 (List.replicate 5 (errorIssue "m" "r"))).2.2 (by decide)⟩

/-! ### Claim C2: partial idempotence of the pipeline -/

/-- C2 counterexample: on a minimal well-formed document the first run emits
no issue and scores 100, but the second run — over the first run's output
tree — scores strictly lower (95): the dark-mode `<style>` element injected
by the first run triggers the style-tag warning. -/
theorem claim_C2_counterexample :
    (optimizeForEmailClients (optimizeForEmailClients exMinimal).doc).compatibilityScore <
      (optimizeForEmailClients exMinimal).compatibilityScore := by decide

/-- C2 amended: re-running the pipeline on its own output can lower the
score; on the minimal document the first run has no issues (score 100) while
the second run's sole issue message is the style-tag warning caused by the
pipeline's own injected dark-mode style block (score 95) — a new distinct
issue message that is not an effect of the duplicate meta-tag insertion. -/
theorem claim_C2_amended :
    (optimizeForEmailClients exMinimal).issues = [] ∧
    (optimizeForEmailClients exMinimal).compatibilityScore = 100 ∧
    ((optimizeForEmailClients (optimizeForEmailClients exMinimal).doc).issues.map Issue.message =
      ["Found 1 <style> tags. Email clients have limited CSS support."]) ∧
    (optimizeForEmailClients (optimizeForEmailClients exMinimal).doc).compatibilityScore = 95 := by
  decide

/-! ### Claim C5: nested-table warning threshold -/

/-- C5 counterexample: a document with 4 tables nested inside each other
(depth 4) yields no issue at all mentioning nested tables — the outermost
table has only 3 descendant tables and the code requires more than 3. -/
theorem claim_C5_counterexample :
    countElemsL (fun t _ => t == "table") exDepth4 = 4 ∧
    (optimizeForEmailClients exDepth4).issues.all
      (fun i => !(jsIncludes i.message "nested tables")) = true := by decide

/-- C5 amended: with 5 nested tables (depth 5) the outermost table has 4
descendant tables, so exactly one warning mentioning "4 nested tables" is
emitted and the score is reduced by at least 5. -/
theorem claim_C5_amended :
    countElemsL (fun t _ => t == "table") exDepth5 = 5 ∧
    ((optimizeForEmailClients exDepth5).issues.filter
        (fun i => jsIncludes i.message "nested tables")).map Issue.message =
      ["Table has 4 nested tables. This may cause layout issues in some email clients."] ∧
    (optimizeForEmailClients exDepth5).compatibilityScore ≤ 100 - 5 := by decide

/-! ### Claim C7: Outlook font-fallback rewrite -/

/-- C7 counterexample: the claim says the rewrite appends `, Arial, sans-serif`
after the existing, otherwise unmodified, font list; but the code re-joins the
trimmed, quote-stripped entries, so a quoted font `"CustomFont"` loses its
quotes in the output — the existing font list is modified. -/
theorem claim_C7_counterexample :
    (collectTagStyles (optimizeForEmailClients exFont).doc).filter (fun p => p.1 == "div") =
      [("div", some "color: red; font-family: CustomFont, Arial, sans-serif; margin: 0")] ∧
    ("color: red; font-family: CustomFont, Arial, sans-serif; margin: 0" : String) ≠
      "color: red; font-family: \"CustomFont\", Arial, sans-serif; margin: 0" :=
  ⟨by decide, by decide⟩

/-- C7 amended: when the style matches `/font-family:\s*([^;]+)/` the style
splits as `pre ++ "font-family:" ++ ws ++ capture ++ post` (with a nonempty
capture), and when no captured font is Outlook-safe the rewrite replaces only
that first matched declaration; the text before and after the match — hence
every other declaration — is unchanged.  The replacement string
`"font-family: " ++ (entries trimmed and stripped of quote characters, joined
by ", ") ++ ", Arial, sans-serif"` passes through JavaScript's
`$`-substitution, so whenever the rejoined font list contains no `$` character
the matched declaration becomes exactly that string — normalized, not
preserved verbatim — while `$`-sequences are substituted instead of spliced
(concretely, style `font-family: $$` becomes
`font-family: $, Arial, sans-serif`). -/
theorem claim_C7_amended :
    (∀ (s : String) (m : FFMatch), ffScan s.data = some m →
      s.data = m.pre ++ ffKey ++ m.ws ++ m.capture ++ m.post ∧ m.capture ≠ []) ∧
    (∀ (t : String) (a : Attrs) (s : String) (m : FFMatch),
      getAttr a "style" = some s → ffScan s.data = some m →
      (parseFonts ⟨m.capture⟩).any (fun f => OUTLOOK_SAFE_FONTS.contains f) = false →
      '$' ∉ (jsJoin ", " (parseFonts ⟨m.capture⟩)).data →
      outlookFontFix t a =
        setAttr "style"
          (⟨m.pre⟩ ++ "font-family: " ++ jsJoin ", " (parseFonts ⟨m.capture⟩) ++
            ", Arial, sans-serif" ++ ⟨m.post⟩) a) ∧
    outlookFontFix "div" [("style", "font-family: $$")] =
      [("style", "font-family: $, Arial, sans-serif")] :=
  ⟨fun s m h => ffScan_sound s.data m h, outlookFontFix_eq, by decide⟩

/-- Witness for C7 at a concrete input: the quoted font is dequoted and the
fallback appended. -/
theorem claim_C7_witness :
    outlookFontFix "div" [("style", "font-family: \"CustomFont\"")] =
      setAttr "style"
        ((⟨([] : List Char)⟩ : String) ++ "font-family: " ++
          jsJoin ", " (parseFonts ⟨"\"CustomFont\"".data⟩) ++ ", Arial, sans-serif" ++
          (⟨([] : List Char)⟩ : String))
        [("style", "font-family: \"CustomFont\"")] :=
  claim_C7_amended.2.1 "div" _ "font-family: \"CustomFont\""
    ⟨[], " ".data, "\"CustomFont\"".data, []⟩ rfl (by decide) (by decide) (by decide)

/-! ### Claim C9: empty `alt` treated as missing -/

/-- C9: an `<img>` whose `alt` attribute is present but empty is treated by
`optimizeImages` exactly like one with no `alt` attribute (truthiness test):
the "Image missing alt text" warning fires (score 95 = 100 - 5), the output
image carries `alt=""`, the run is indistinguishable from the absent-`alt`
run, and the structural validator's `img:not([alt])` count does not count
such an image (it is 0 on the input). -/
theorem claim_C9 :
    (optimizeForEmailClients exImgEmptyAlt).issues.map Issue.message = ["Image missing alt text"] ∧
    (optimizeForEmailClients exImgEmptyAlt).compatibilityScore = 95 ∧
    countElemsL (fun t a => t == "img" && getAttr a "alt" == some "")
      (optimizeForEmailClients exImgEmptyAlt).doc = 1 ∧
    countElemsL (fun t _ => t == "img") (optimizeForEmailClients exImgEmptyAlt).doc = 1 ∧
    (optimizeForEmailClients exImgNoAlt).issues = (optimizeForEmailClients exImgEmptyAlt).issues ∧
    (optimizeForEmailClients exImgNoAlt).compatibilityScore =
      (optimizeForEmailClients exImgEmptyAlt).compatibilityScore ∧
    countElemsL (fun t a => t == "img" && getAttr a "alt" == none) exImgEmptyAlt = 0 := by
  decide

/-! ### Claim C6: empty input and the structural validator -/

/-- C6: the structural validator appends an error issue for each of `html`,
`head` and `body` exactly when that element is absent from the final tree;
on the tree loaded from the completely empty input (the parser synthesizes
the full skeleton) none is absent, so the run has no issue at all and the
score is 100 — a deduction of 20 per such error, with zero such errors. -/
theorem claim_C6 :
    (∀ doc : List Node,
      ((validateEmailStructure doc []).filter (fun i => i.type == IssueType.error)).map Issue.message =
        (if countElemsL (fun t _ => t == "html") doc == 0 then ["Missing HTML document structure"] else []) ++
        (if countElemsL (fun t _ => t == "head") doc == 0 then ["Missing HEAD section"] else []) ++
        (if countElemsL (fun t _ => t == "body") doc == 0 then ["Missing BODY section"] else [])) ∧
    (optimizeForEmailClients loadedEmptyDoc).issues = [] ∧
    (optimizeForEmailClients loadedEmptyDoc).compatibilityScore = 100 := by
  refine ⟨?_, by decide, by decide⟩
  intro doc
  simp only [validateEmailStructure]
  split_ifs <;> simp [errorIssue, warnIssue]

/-! ### Claim C8: failure propagation -/

/-- Sequential composition of stage runs. -/
theorem runStages_append {α : Type} (l1 l2 : List (α → Except String α)) (x : α) :
    runStages (l1 ++ l2) x =
      match runStages l1 x with
      | .error e => .error e
      | .ok y => runStages l2 y := by
  induction l1 generalizing x with
  | nil => simp [runStages]
  | cons st rest ih =>
    simp only [List.cons_append, runStages]
    cases st x with
    | error e => rfl
    | ok y => exact ih y

/-- C8 counterexample: `cheerio.load(html)` is evaluated before the `try`
block, so a parse failure reaches the caller unwrapped — a second failure
type distinct from the single wrapped "optimization failed" error. -/
theorem claim_C8_counterexample :
    optimizeDriver (Except.error "SyntaxError: Unexpected token")
        ([] : List (Unit → Except String Unit)) (fun u => u) =
      Except.error "SyntaxError: Unexpected token" ∧
    "SyntaxError: Unexpected token" ≠ wrappedFailureMessage :=
  ⟨rfl, by decide⟩

/-- C8 amended: a failure raised inside any of the pipeline stages aborts all
remaining stages and surfaces as the single wrapped failure, and no partial
result is ever returned (a run with a failing stage never succeeds); a
failure of the input parse, however, aborts the call but surfaces unwrapped,
since the parse happens before the `try` block. -/
theorem claim_C8_amended {α β : Type} (x : α) (pre post : List (α → Except String α))
    (e msg : String) (finish : α → β) :
    (∀ y, runStages pre x = Except.ok y →
      optimizeDriver (Except.ok x) (pre ++ (fun _ => Except.error e) :: post) finish =
        Except.error wrappedFailureMessage) ∧
    (optimizeDriver (Except.error msg) (pre ++ (fun _ => Except.error e) :: post) finish =
      Except.error msg) ∧
    (∀ z, runStages (pre ++ (fun _ => Except.error e) :: post) x ≠ Except.ok z) := by
  refine ⟨?_, rfl, ?_⟩
  · intro y hy
    simp only [optimizeDriver, runStages_append, hy, runStages]
  · intro z hz
    rw [runStages_append] at hz
    cases hpre : runStages pre x with
    | error e' => rw [hpre] at hz; exact Except.noConfusion hz
    | ok y => rw [hpre] at hz; simp [runStages] at hz

/-- Witness for C8 at a concrete instance: with a successful (trivial) parse
and a failing middle stage, the caller sees exactly the wrapped failure. -/
theorem claim_C8_witness :
    optimizeDriver (Except.ok ()) ([] ++ (fun _ => Except.error "stage blew up") :: []) (fun u => u) =
      Except.error wrappedFailureMessage :=
  (claim_C8_amended () [] [] "stage blew up" "unused" (fun u => u)).1 () rfl

/-! ### Claim C4: every output image carries an alt attribute -/

/-- C4: for every input tree in which no `<img>` sits below a `<style>` tag
(the only shape the lenient HTML parser produces, since style content is raw
text), every `<img>` element of the pipeline's output carries an `alt`
attribute; the number of `"Image missing alt text"` warnings in the final
issues equals the number of input images with a falsy (absent or empty) `alt`,
which is at least the number of images with no `alt` attribute at all; and the
per-image loop body sets a missing `alt` to the empty string while appending
exactly one such warning. -/
theorem claim_C4 (doc : List Node) (a : Attrs) (s : List Issue)
    (hdoc : noneUnderL isStyleTag isImgTag doc = true)
    (halt : getAttr a "alt" = none) :
    allElemsL imgHasAlt (optimizeForEmailClients doc).doc = true ∧
    countWarnMsg "Image missing alt text" (optimizeForEmailClients doc).issues =
      countElemsL imgFalsyAlt doc ∧
    countElemsL (fun t a => t == "img" && getAttr a "alt" == none) doc ≤
      countElemsL imgFalsyAlt doc ∧
    getAttr (imgFix "img" a s).1 "alt" = some "" ∧
    countWarnMsg "Image missing alt text" (imgFix "img" a s).2 =
      countWarnMsg "Image missing alt text" s + 1 := by
  have hfalsy : attrFalsy a "alt" = true := by
    unfold attrFalsy
    rw [halt]
  have he : (("img" : String) == "img") = true := by decide
  have hQ : imgFalsyAlt "img" a = true := by
    unfold imgFalsyAlt
    rw [hfalsy]
    rfl
  refine ⟨output_imgHasAlt doc, imgAlt_warning_count doc hdoc, ?_, ?_, ?_⟩
  · refine countElemsL_le_of_imp _ _ ?_ doc
    intro t a' hx
    rw [Bool.and_eq_true] at hx
    unfold imgFalsyAlt
    rw [hx.1, Bool.true_and]
    unfold attrFalsy
    have hnone : getAttr a' "alt" = none := by simpa using hx.2
    rw [hnone]
  · simp only [imgFix]
    rw [if_pos he, if_pos hfalsy]
    split
    · rw [getAttr_setAttr_ne "style" "alt" _ _ (by decide), getAttr_setAttr_self]
    · rw [getAttr_setAttr_self]
  · rw [countWarnMsg_imgFix "img" a s, if_pos hQ]

/-- Witness for C4 at a concrete document (one image without `alt`) and a
concrete attribute list. -/
theorem claim_C4_witness :
    allElemsL imgHasAlt (optimizeForEmailClients exImgNoAlt).doc = true ∧
    countWarnMsg "Image missing alt text" (optimizeForEmailClients exImgNoAlt).issues =
      countElemsL imgFalsyAlt exImgNoAlt ∧
    countElemsL (fun t a => t == "img" && getAttr a "alt" == none) exImgNoAlt ≤
      countElemsL imgFalsyAlt exImgNoAlt ∧
    getAttr (imgFix "img" [] []).1 "alt" = some "" ∧
    countWarnMsg "Image missing alt text" (imgFix "img" [] []).2 =
      countWarnMsg "Image missing alt text" [] + 1 :=
  claim_C4 exImgNoAlt [] [] (by decide) rfl

/-! ### Claim C10: border-collapse never survives to the output -/

/-- C10: for every input tree in which no `<table>` sits below a `<style>`,
`<script>`, stylesheet `<link>` or viewport `<meta>` element (the only shape
the lenient HTML parser produces), no element of the pipeline's output has an
inline-style `border-collapse` declaration — the Style Inliner's appended
`"; border-collapse: collapse;"` is removed again by the Sanitizer because
`border-collapse` is not email-safe; each table that received the suffix also
yields a `"Removed unsupported CSS properties"` warning, so the final score is
at most `max 0 (100 - 5*k)` for `k` such tables. -/
theorem claim_C10 (doc : List Node)
    (h : noneUnderL removableTag isTableTag doc = true) :
    allElemsL (fun _ a => elemNoBCDecl a) (optimizeForEmailClients doc).doc = true ∧
    countElemsL tableLacksBC doc ≤
      countWarnMsg "Removed unsupported CSS properties" (optimizeForEmailClients doc).issues ∧
    (optimizeForEmailClients doc).compatibilityScore ≤
      max 0 (100 - 5 * (countElemsL tableLacksBC doc : Int)) := by
  refine ⟨?_, tableBC_warning_count doc h, ?_⟩
  · exact allElemsL_imp _ _ (fun t a hp => elemNoBCDecl_of_styleSafe a hp) _
      (output_elemStyleSafe doc)
  · rw [optimize_score]
    have hc := tableBC_warning_count doc h
    rw [optimize_issues] at hc
    exact score_le_of_warnCount _ _ _ hc

/-- Witness for C10 at a concrete document: four nested bare tables, each
lacking `border-collapse` in its (absent) style. -/
theorem claim_C10_witness :
    allElemsL (fun _ a => elemNoBCDecl a) (optimizeForEmailClients exDepth4).doc = true ∧
    countElemsL tableLacksBC exDepth4 ≤
      countWarnMsg "Removed unsupported CSS properties" (optimizeForEmailClients exDepth4).issues ∧
    (optimizeForEmailClients exDepth4).compatibilityScore ≤
      max 0 (100 - 5 * (countElemsL tableLacksBC exDepth4 : Int)) :=
  claim_C10 exDepth4 (by decide)

end EmailOpt
